import Mathlib

/-!
Verification development for the dump_ciede2000 video-quality tool.

The Rust sources `src/main.rs` and `src/rgbtolab/mod.rs` are embedded
shallowly: machine floats are idealized as real numbers, byte buffers as
lists of naturals.  The CIEDE2000 formula itself lives in the repository's
`delta_e` module, which is not part of the provided sources; it is modelled
from the specification (Sharma et al. step list) where indicated.
-/

namespace DumpCiede

/-! ## List combinators mirroring the Rust iterator pipeline -/

/-- itertools `interleave`: alternate elements of two lists, flushing the
remainder of the longer list once the other is exhausted. -/
def interleave {α : Type} : List α → List α → List α
  | [], bs => bs
  | a :: as, bs => a :: interleave bs as
termination_by as bs => as.length + bs.length
decreasing_by simp [List.length_cons]; omega

/-- The `twice` helper of main.rs: `itertools::interleave(i.clone(), i)`,
which repeats every element of the list twice. -/
def twice {α : Type} (l : List α) : List α := interleave l l

/-- Seven-way `izip!`: zips seven lists with a function, stopping at the
shortest list, exactly like the itertools macro used by the row kernels. -/
def zip7 {α β γ δ ε ζ η ρ : Type} (f : α → β → γ → δ → ε → ζ → η → ρ) :
    List α → List β → List γ → List δ → List ε → List ζ → List η → List ρ
  | a :: as, b :: bs, c :: cs, d :: ds, e :: es, g :: gs, h :: hs =>
      f a b c d e g h :: zip7 f as bs cs ds es gs hs
  | _, _, _, _, _, _, _ => []

/-- `slice::chunks n`: split a list into consecutive chunks of length `n`,
the final chunk possibly shorter. -/
def chunksOf {α : Type} : ℕ → List α → List (List α)
  | _, [] => []
  | 0, _ :: _ => []
  | n + 1, a :: l => (a :: l).take (n + 1) :: chunksOf (n + 1) ((a :: l).drop (n + 1))
termination_by _ l => l.length
decreasing_by simp only [List.length_drop, List.length_cons]; omega

/-- The `to_u16` closure of the 16-bit scalar row kernels: read a two-byte
little-endian sample (`(input[1] << 8) | input[0]`; on byte values the
bitwise-or is plain addition).  Out-of-range reads yield the junk value 0
(the Rust code would panic; the kernels are only run on even-length rows). -/
def toU16 (c : List ℕ) : ℕ := c.headD 0 + 256 * (c.tail.headD 0)

/-- A slice `l[start..][..len]` of a frame plane. -/
def sliceOf {α : Type} (l : List α) (start len : ℕ) : List α :=
  (l.drop start).take len

/-! ## Colorspace bookkeeping from main.rs -/

/-- Chroma sampling enum (taken from rav1e), as in main.rs. -/
inductive ChromaSampling : Type
  | Cs420 : ChromaSampling
  | Cs422 : ChromaSampling
  | Cs444 : ChromaSampling
  | Cs400 : ChromaSampling
deriving DecidableEq, Repr

/-- The `(xdec, ydec)` pair main.rs computes for each subsampling; note the
grayscale case `Cs400` falls through to the 4:2:0 decimation. -/
def csDecimation : ChromaSampling → ℕ × ℕ
  | ChromaSampling.Cs420 => (1, 1)
  | ChromaSampling.Cs422 => (1, 0)
  | ChromaSampling.Cs444 => (0, 0)
  | ChromaSampling.Cs400 => (1, 1)

/-- Which configurations make `main` call `exit(1)` before any frame is
processed: mismatched dimensions, bit depths or subsampling.  The grayscale
check at main.rs:163-165 only prints a message (no `exit`), so `Cs400`
inputs do not abort. -/
def configExitsEarly (w1 h1 w2 h2 bd1 bd2 : ℕ) (cs1 cs2 : ChromaSampling) : Bool :=
  decide ((w1, h1) ≠ (w2, h2)) || decide (bd1 ≠ bd2) || decide (cs1 ≠ cs2)

/-- `bytes_per_sample` of the y4m reader: 1 byte for 8-bit input, 2 bytes
for 10/12-bit input. -/
def bytewidthOf (bd : ℕ) : ℕ := if bd = 8 then 1 else 2

/-- The row function chosen by `get_delta_e_row_fn`, as a first-class
value: either a scalar kernel for a bit depth and horizontal decimation, or
an AVX2 kernel (which only exists for `xdec = 1`). -/
inductive RowKernel : Type
  | scalar (bd xdec : ℕ) : RowKernel
  | avx2 (bd : ℕ) : RowKernel
deriving DecidableEq, Repr

/-- `get_delta_e_row_fn` from main.rs: AVX2 kernels are returned only when
the CPU supports AVX2, `xdec == 1` and SIMD is not opted out; otherwise the
scalar kernel for the `(bit_depth, xdec)` key.  `none` models the
`unreachable!()` arms. -/
def get_delta_e_row_fn (bd xdec : ℕ) (simd avx2Supported : Bool) : Option RowKernel :=
  if avx2Supported && decide (xdec = 1) && simd then
    match bd with
    | 8 => some (RowKernel.avx2 8)
    | 10 => some (RowKernel.avx2 10)
    | 12 => some (RowKernel.avx2 12)
    | _ => none
  else
    match bd, xdec with
    | 8, 1 => some (RowKernel.scalar 8 1)
    | 10, 1 => some (RowKernel.scalar 10 1)
    | 12, 1 => some (RowKernel.scalar 12 1)
    | 8, 0 => some (RowKernel.scalar 8 0)
    | 10, 0 => some (RowKernel.scalar 10 0)
    | 12, 0 => some (RowKernel.scalar 12 0)
    | _, _ => none

/-! ## The fast power approximation grid check (computable part)

`pow24CellOk M n` certifies, by pure natural-number arithmetic, that on the
interval `[n/M, (n+1)/M]` the binomial-series cubic of `pow_2_4` stays
within relative error `1/10000` of `t^(12/5)`.  Writing
`p(t) = (7 - 36 t + 126 t^2 + 28 t^3)/125`, the checks are
`p((n+1)/M)^5 < (10001/10000)^5 (n/M)^12` and
`p(n/M)^5 > (9999/10000)^5 ((n+1)/M)^12`, cleared of denominators. -/
def pow24CellOk (M n : ℕ) : Bool :=
  let q1 := 7 * M ^ 3 + 126 * M * (n + 1) ^ 2 + 28 * (n + 1) ^ 3
  let r1 := 36 * M ^ 2 * (n + 1)
  let q0 := 7 * M ^ 3 + 126 * M * n ^ 2 + 28 * n ^ 3
  let r0 := 36 * M ^ 2 * n
  decide (r1 < q1) && decide (r0 < q0) &&
    decide ((q1 - r1) ^ 5 * 10000 ^ 5 < 10001 ^ 5 * 125 ^ 5 * n ^ 12 * M ^ 3) &&
    decide (9999 ^ 5 * 125 ^ 5 * (n + 1) ^ 12 * M ^ 3 < (q0 - r0) ^ 5 * 10000 ^ 5)

/-- Check `pow24CellOk M` on the `2^d` consecutive cells starting at `n`
(balanced recursion so that kernel evaluation stays shallow). -/
def pow24GridOk (M : ℕ) : ℕ → ℕ → Bool
  | 0, n => pow24CellOk M n
  | d + 1, n => pow24GridOk M d n && pow24GridOk M d (n + 2 ^ d)

noncomputable section

open Real

/-! ## rgbtolab/mod.rs: the fast power approximation -/

/-- The binomial-series cubic of `pow_2_4` ("Plenty of precision."):
`7/125 - 36/125 x + 126/125 x^2 + 28/125 x^3`. -/
def pow24Poly (t : ℝ) : ℝ :=
  7 / 125 - 36 / 125 * t + 126 / 125 * t ^ 2 + 28 / 125 * t ^ 3

/-- The value computed by `pow_2_4` when every table index is in range,
idealized over the reals.  `Int.log 2 x` is the float's unbiased exponent,
`m` the mantissa (exponent zeroed), `frac` its top three fraction bits,
`truncated` the table's midpoint mantissa `1 + (frac + 0.5)/8`, and the
result is `est * truncated^2.4 * (2^log2)^2.4` exactly as in the source. -/
def pow24Val (x : ℝ) : ℝ :=
  let log2 : ℤ := Int.log 2 x
  let expPow : ℝ := ((2 : ℝ) ^ log2) ^ (2.4 : ℝ)
  let m : ℝ := x / (2 : ℝ) ^ log2
  let frac : ℤ := ⌊(m - 1) * 8⌋
  let truncated : ℝ := 1 + ((frac : ℝ) + 0.5) / 8
  let truncatedPow : ℝ := truncated ^ (2.4 : ℝ)
  pow24Poly (m * (1 / truncated)) * truncatedPow * expPow

/-- `pow_2_4` from rgbtolab/mod.rs.  The Rust function indexes the 8-entry
exponent table at `log2 + 4`, so any input whose exponent falls outside
`[-4, 3]` (in particular any nonpositive input) panics with an
out-of-bounds index; that is modelled by `none`. -/
def pow_2_4 (x : ℝ) : Option ℝ :=
  if 0 < x ∧ -4 ≤ Int.log 2 x ∧ Int.log 2 x ≤ 3 then some (pow24Val x) else none

/-! ## rgbtolab/mod.rs: RGB → XYZ → Lab -/

/-- κ from rgbtolab/mod.rs. -/
def KAPPA : ℝ := 24389.0 / 27.0

/-- ε from rgbtolab/mod.rs. -/
def EPSILON : ℝ := 216.0 / 24389.0

/-- CIELAB triple (the `Lab` struct of the `lab` crate). -/
structure Lab : Type where
  l : ℝ
  a : ℝ
  b : ℝ
deriving Inhabited

/-- `rgb_to_xyz_map`: sRGB-style gamma decode, using the value the fast
power approximation produces on its in-range domain. -/
def rgb_to_xyz_map (c : ℝ) : ℝ :=
  if c > 10.0 / 255.0 then pow24Val ((c + 0.055) * (1.0 / 1.055))
  else c * (1.0 / 12.92)

/-- `rgb_to_xyz_map` with the table-index domain check of `pow_2_4` kept:
`none` exactly when the Rust code would panic. -/
def rgb_to_xyz_map_checked (c : ℝ) : Option ℝ :=
  if c > 10.0 / 255.0 then pow_2_4 ((c + 0.055) * (1.0 / 1.055))
  else some (c * (1.0 / 12.92))

/-- `rgb_to_xyz` from rgbtolab/mod.rs. -/
def rgb_to_xyz (rgb : ℝ × ℝ × ℝ) : ℝ × ℝ × ℝ :=
  let r := rgb_to_xyz_map rgb.1
  let g := rgb_to_xyz_map rgb.2.1
  let b := rgb_to_xyz_map rgb.2.2
  (r * 0.4124564390896921 + g * 0.357576077643909 + b * 0.18043748326639894,
   r * 0.21267285140562248 + g * 0.715152155287818 + b * 0.07217499330655958,
   r * 0.019333895582329317 + g * 0.119192025881303 + b * 0.9503040785363677)

/-- `xyz_to_lab_map` from rgbtolab/mod.rs. -/
def xyz_to_lab_map (c : ℝ) : ℝ :=
  if c > EPSILON then c ^ ((1.0 : ℝ) / 3.0)
  else (KAPPA * c + 16.0) * (1.0 / 116.0)

/-- `xyz_to_lab` from rgbtolab/mod.rs. -/
def xyz_to_lab (xyz : ℝ × ℝ × ℝ) : Lab :=
  let x := xyz_to_lab_map (xyz.1 * (1.0 / 0.95047))
  let y := xyz_to_lab_map xyz.2.1
  let z := xyz_to_lab_map (xyz.2.2 * (1.0 / 1.08883))
  ⟨116.0 * y - 16.0, 500.0 * (x - y), 200.0 * (y - z)⟩

/-- `rgb_to_lab` from rgbtolab/mod.rs. -/
def rgb_to_lab (rgb : ℝ × ℝ × ℝ) : Lab := xyz_to_lab (rgb_to_xyz rgb)

/-! ## The CIEDE2000 metric

Modelled from the spec: the repository's `delta_e` module is not among the
provided sources, so the distance metric is built from the specification's
step list (standard CIEDE2000, Sharma et al. formulation, with all
trigonometric arguments in degrees). -/

/-- KSub weighting parameters of the CIEDE2000 call. -/
structure KSubArgs : Type where
  l : ℝ
  c : ℝ
  h : ℝ

/-- The fixed weights main.rs passes to every distance call. -/
def K_SUB : KSubArgs := ⟨0.65, 1.0, 4.0⟩

/-- Modelled from the spec: four-quadrant arctangent (radians), with
`atan2 0 0 = 0` as the spec's zero-chroma convention requires. -/
def atan2 (y x : ℝ) : ℝ :=
  if 0 < x then arctan (y / x)
  else if x < 0 ∧ 0 ≤ y then arctan (y / x) + π
  else if x < 0 then arctan (y / x) - π
  else if 0 < y then π / 2
  else if y < 0 then -(π / 2)
  else 0

/-- Modelled from the spec: hue angle in degrees, `atan2 b a' mod 360`,
landing in `[0, 360)`. -/
def hueDeg (y x : ℝ) : ℝ :=
  let d := atan2 y x * (180 / π)
  if d < 0 then d + 360 else d

/-- Sine of an angle given in degrees. -/
def sinDeg (θ : ℝ) : ℝ := Real.sin (θ * (π / 180))

/-- Cosine of an angle given in degrees. -/
def cosDeg (θ : ℝ) : ℝ := Real.cos (θ * (π / 180))

/-- Modelled from the spec: adjust a raw hue difference by ±360° so that it
lies in `(-180°, 180°]`. -/
def hueDiffAdjust (d : ℝ) : ℝ :=
  if 180 < d then d - 360 else if d ≤ -180 then d + 360 else d

/-- Modelled from the spec: mean hue, adjusted by ±360° on the sum when the
two hues are more than 180° apart (Sharma et al.). -/
def meanHue (h1 h2 : ℝ) : ℝ :=
  if |h1 - h2| ≤ 180 then (h1 + h2) / 2
  else if h1 + h2 < 360 then (h1 + h2 + 360) / 2
  else (h1 + h2 - 360) / 2

/-- `hypot`: chroma of a CIELAB point. -/
def chromaOf (a b : ℝ) : ℝ := Real.sqrt (a ^ 2 + b ^ 2)

/-- Modelled from the spec: the chroma-rescaling factor
`G = (1 - sqrt(Cbar^7/(Cbar^7+25^7)))/2`. -/
def gFactor (cBar : ℝ) : ℝ :=
  0.5 * (1 - Real.sqrt (cBar ^ 7 / (cBar ^ 7 + 25 ^ 7)))

/-- G computed from the mean chroma of an ordered pair of Lab points; it is
symmetric in the pair. -/
def G12 (lab1 lab2 : Lab) : ℝ :=
  gFactor ((chromaOf lab1.a lab1.b + chromaOf lab2.a lab2.b) / 2)

/-- Adjusted `a'` coordinate of the first point of a pair. -/
def aPrime (lab1 lab2 : Lab) : ℝ := lab1.a * (1 + G12 lab1 lab2)

/-- Adjusted chroma `C'` of the first point of a pair. -/
def cPrime (lab1 lab2 : Lab) : ℝ := chromaOf (aPrime lab1 lab2) lab1.b

/-- Adjusted hue angle `h'` (degrees, in `[0, 360)`) of the first point of
a pair. -/
def hPrime (lab1 lab2 : Lab) : ℝ := hueDeg lab1.b (aPrime lab1 lab2)

/-- Modelled from the spec: the CIEDE2000 color difference
(`DE2000::new(lab1, lab2, ksub)` of the absent `delta_e` module), following
the specification's eleven steps. -/
def DE2000 (lab1 lab2 : Lab) (ksub : KSubArgs) : ℝ :=
  let c1p := cPrime lab1 lab2
  let c2p := cPrime lab2 lab1
  let h1 := hPrime lab1 lab2
  let h2 := hPrime lab2 lab1
  let dL := lab2.l - lab1.l
  let dC := c2p - c1p
  let dh := if c1p * c2p = 0 then 0 else hueDiffAdjust (h2 - h1)
  let dH := 2 * Real.sqrt (c1p * c2p) * sinDeg (dh / 2)
  let lBar := (lab1.l + lab2.l) / 2
  let cBar := (c1p + c2p) / 2
  let hBar := if c1p * c2p = 0 then h1 + h2 else meanHue h1 h2
  let t := 1 - 0.17 * cosDeg (hBar - 30) + 0.24 * cosDeg (2 * hBar) +
    0.32 * cosDeg (3 * hBar + 6) - 0.20 * cosDeg (4 * hBar - 63)
  let sl := 1 + 0.015 * (lBar - 50) ^ 2 / Real.sqrt (20 + (lBar - 50) ^ 2)
  let sc := 1 + 0.045 * cBar
  let sh := 1 + 0.015 * cBar * t
  let rt := 2 * Real.sqrt (cBar ^ 7 / (cBar ^ 7 + 25 ^ 7)) *
    sinDeg (60 * Real.exp (-(((hBar - 275) / 25) ^ 2)))
  Real.sqrt ((dL / (ksub.l * sl)) ^ 2 + (dC / (ksub.c * sc)) ^ 2 +
    (dH / (ksub.h * sh)) ^ 2 + rt * (dC / (ksub.c * sc)) * (dH / (ksub.h * sh)))

/-! ## main.rs: sample decode and the per-pixel distance -/

/-- The `yuv_to_rgb` closure of `delta_e_scalar`: video-range BT.709 decode
at bit depth `bd` (`scale = 1 << (bd - 8)`), unclamped. -/
def yuv_to_rgb (bd : ℕ) (yuv : ℕ × ℕ × ℕ) : ℝ × ℝ × ℝ :=
  let scale : ℝ := 2 ^ (bd - 8)
  let y := ((yuv.1 : ℝ) - 16.0 * scale) * (1.0 / (219.0 * scale))
  let u := ((yuv.2.1 : ℝ) - 128.0 * scale) * (1.0 / (224.0 * scale))
  let v := ((yuv.2.2 : ℝ) - 128.0 * scale) * (1.0 / (224.0 * scale))
  (y + 1.28033 * v, y - 0.21482 * u - 0.38059 * v, y + 2.12798 * u)

/-- `delta_e_scalar` from main.rs: decode both samples, convert to CIELAB,
and take the CIEDE2000 distance with the fixed `K_SUB` weights. -/
def delta_e_scalar (bd : ℕ) (yuv1 yuv2 : ℕ × ℕ × ℕ) : ℝ :=
  DE2000 (rgb_to_lab (yuv_to_rgb bd yuv1)) (rgb_to_lab (yuv_to_rgb bd yuv2)) K_SUB

/-! ## main.rs: scalar row kernels

A row kernel receives the six plane slices of one scanline of the two
frames plus the result slice, and returns the updated result slice: the
`izip!` loops write one distance per iteration, so the written prefix has
the length of the shortest zipped iterator and the remainder of the result
slice is left untouched. -/

/-- The 8-bit, horizontally decimated (`xdec = 1`) scalar row body:
`izip!(row1.y, twice(row1.u), twice(row1.v), row2.y, ..., res_row)`. -/
def delta_e_row_body8 (y1 u1 v1 y2 u2 v2 : List ℕ) (res : List ℝ) : List ℝ :=
  let written := zip7
    (fun a b c d e f (_ : ℝ) => delta_e_scalar 8 (a, b, c) (d, e, f))
    y1 (twice u1) (twice v1) y2 (twice u2) (twice v2) res
  written ++ res.drop written.length

/-- The 8-bit 4:4:4 (`xdec = 0`) scalar row body (no chroma duplication). -/
def delta_e_row_body8_444 (y1 u1 v1 y2 u2 v2 : List ℕ) (res : List ℝ) : List ℝ :=
  let written := zip7
    (fun a b c d e f (_ : ℝ) => delta_e_scalar 8 (a, b, c) (d, e, f))
    y1 u1 v1 y2 u2 v2 res
  written ++ res.drop written.length

/-- The 16-bit (`bd ∈ {10, 12}`), decimated scalar row body: planes are
split into two-byte chunks decoded by `to_u16`, chroma chunks duplicated. -/
def delta_e_row_body16 (bd : ℕ) (y1 u1 v1 y2 u2 v2 : List ℕ) (res : List ℝ) : List ℝ :=
  let written := zip7
    (fun a b c d e f (_ : ℝ) =>
      delta_e_scalar bd (toU16 a, toU16 b, toU16 c) (toU16 d, toU16 e, toU16 f))
    (chunksOf 2 y1) (twice (chunksOf 2 u1)) (twice (chunksOf 2 v1))
    (chunksOf 2 y2) (twice (chunksOf 2 u2)) (twice (chunksOf 2 v2)) res
  written ++ res.drop written.length

/-- The 16-bit 4:4:4 scalar row body. -/
def delta_e_row_body16_444 (bd : ℕ) (y1 u1 v1 y2 u2 v2 : List ℕ) (res : List ℝ) : List ℝ :=
  let written := zip7
    (fun a b c d e f (_ : ℝ) =>
      delta_e_scalar bd (toU16 a, toU16 b, toU16 c) (toU16 d, toU16 e, toU16 f))
    (chunksOf 2 y1) (chunksOf 2 u1) (chunksOf 2 v1)
    (chunksOf 2 y2) (chunksOf 2 u2) (chunksOf 2 v2) res
  written ++ res.drop written.length

/-- `delta_e_row_scalar`: the trait default method, branching on the
compile-time `BIT_DEPTH` and `X_DECIMATION` constants. -/
def delta_e_row_scalar (bd xdec : ℕ) (y1 u1 v1 y2 u2 v2 : List ℕ) (res : List ℝ) : List ℝ :=
  if bd = 8 then
    if xdec = 1 then delta_e_row_body8 y1 u1 v1 y2 u2 v2 res
    else delta_e_row_body8_444 y1 u1 v1 y2 u2 v2 res
  else
    if xdec = 1 then delta_e_row_body16 bd y1 u1 v1 y2 u2 v2 res
    else delta_e_row_body16_444 bd y1 u1 v1 y2 u2 v2 res

/-! ## main.rs: AVX2 row kernels

`delta_e_row_avx2` iterates over 8-pixel output chunks; full luma chunks go
through the vector path, whose chroma loads (`unpacklo`) duplicate each
chroma sample across two adjacent lanes, and a short trailing chunk falls
back to the scalar body.  `rgb_to_lab_avx2` is not among the provided
sources; it is modelled from the spec ("the same arithmetic as the scalar
path reimplemented with sized floating-point lanes"), so each vector lane
computes exactly `delta_e_scalar`. -/

/-- The 8-bit AVX2 row kernel. -/
def delta_e_row_avx2_8 (y1 u1 v1 y2 u2 v2 : List ℕ) (res : List ℝ) : List ℝ :=
  if h : y1 = [] ∨ u1 = [] ∨ v1 = [] ∨ y2 = [] ∨ u2 = [] ∨ v2 = [] ∨ res = [] then
    res
  else if y1.length < 8 then
    delta_e_row_body8 (y1.take 8) (u1.take 4) (v1.take 4)
        (y2.take 8) (u2.take 4) (v2.take 4) (res.take 8) ++
      delta_e_row_avx2_8 (y1.drop 8) (u1.drop 4) (v1.drop 4)
        (y2.drop 8) (u2.drop 4) (v2.drop 4) (res.drop 8)
  else
    (List.range 8).map (fun i =>
        delta_e_scalar 8 (y1.getD i 0, u1.getD (i / 2) 0, v1.getD (i / 2) 0)
          (y2.getD i 0, u2.getD (i / 2) 0, v2.getD (i / 2) 0)) ++
      delta_e_row_avx2_8 (y1.drop 8) (u1.drop 4) (v1.drop 4)
        (y2.drop 8) (u2.drop 4) (v2.drop 4) (res.drop 8)
termination_by y1.length
decreasing_by
  all_goals
    have hy : y1 ≠ [] := by intro hnil; exact h (Or.inl hnil)
    have : 0 < y1.length := List.length_pos.mpr hy
    simp only [List.length_drop]; omega

/-- The 16-bit AVX2 row kernel (two bytes per sample, little endian). -/
def delta_e_row_avx2_16 (bd : ℕ) (y1 u1 v1 y2 u2 v2 : List ℕ) (res : List ℝ) : List ℝ :=
  if h : y1 = [] ∨ u1 = [] ∨ v1 = [] ∨ y2 = [] ∨ u2 = [] ∨ v2 = [] ∨ res = [] then
    res
  else if y1.length < 16 then
    delta_e_row_body16 bd (y1.take 16) (u1.take 8) (v1.take 8)
        (y2.take 16) (u2.take 8) (v2.take 8) (res.take 8) ++
      delta_e_row_avx2_16 bd (y1.drop 16) (u1.drop 8) (v1.drop 8)
        (y2.drop 16) (u2.drop 8) (v2.drop 8) (res.drop 8)
  else
    (List.range 8).map (fun i =>
        delta_e_scalar bd
          (y1.getD (2 * i) 0 + 256 * y1.getD (2 * i + 1) 0,
           u1.getD (2 * (i / 2)) 0 + 256 * u1.getD (2 * (i / 2) + 1) 0,
           v1.getD (2 * (i / 2)) 0 + 256 * v1.getD (2 * (i / 2) + 1) 0)
          (y2.getD (2 * i) 0 + 256 * y2.getD (2 * i + 1) 0,
           u2.getD (2 * (i / 2)) 0 + 256 * u2.getD (2 * (i / 2) + 1) 0,
           v2.getD (2 * (i / 2)) 0 + 256 * v2.getD (2 * (i / 2) + 1) 0)) ++
      delta_e_row_avx2_16 bd (y1.drop 16) (u1.drop 8) (v1.drop 8)
        (y2.drop 16) (u2.drop 8) (v2.drop 8) (res.drop 8)
termination_by y1.length
decreasing_by
  all_goals
    have hy : y1 ≠ [] := by intro hnil; exact h (Or.inl hnil)
    have : 0 < y1.length := List.length_pos.mpr hy
    simp only [List.length_drop]; omega

/-- `delta_e_row_avx2`: branch on the compile-time bit depth. -/
def delta_e_row_avx2 (bd : ℕ) (y1 u1 v1 y2 u2 v2 : List ℕ) (res : List ℝ) : List ℝ :=
  if bd = 8 then delta_e_row_avx2_8 y1 u1 v1 y2 u2 v2 res
  else delta_e_row_avx2_16 bd y1 u1 v1 y2 u2 v2 res

/-- Run the row function main.rs obtained from the dispatcher. -/
def runRowKernel (k : RowKernel) (y1 u1 v1 y2 u2 v2 : List ℕ) (res : List ℝ) : List ℝ :=
  match k with
  | RowKernel.scalar bd xdec => delta_e_row_scalar bd xdec y1 u1 v1 y2 u2 v2 res
  | RowKernel.avx2 bd => delta_e_row_avx2 bd y1 u1 v1 y2 u2 v2 res

/-! ## main.rs: frame loop and aggregation -/

/-- One iteration of the frame loop: `delta_e_vec` starts as `w*h` zeros
and each scanline's kernel call updates its `w`-pixel slice, reading luma
row `i` and chroma row `i >> ydec` with the strides main.rs computes. -/
def process_frame (bd xdec ydec : ℕ) (k : RowKernel) (w h : ℕ)
    (y1 u1 v1 y2 u2 v2 : List ℕ) : List ℝ :=
  let bw := bytewidthOf bd
  let ys := w * bw
  let cs := (w >>> xdec) * bw
  ((List.range h).map (fun i =>
    runRowKernel k
      (sliceOf y1 (i * ys) ys) (sliceOf u1 ((i >>> ydec) * cs) cs)
      (sliceOf v1 ((i >>> ydec) * cs) cs)
      (sliceOf y2 (i * ys) ys) (sliceOf u2 ((i >>> ydec) * cs) cs)
      (sliceOf v2 ((i >>> ydec) * cs) cs)
      (List.replicate w 0))).flatten

/-- The per-frame score `45 - 20*log10(mean(delta_e_vec))` of main.rs.
There is no special case for a zero (or negative) mean: `f64::log10`
returns `-inf`/NaN there and the score is not a finite number, which the
model renders as `none`. -/
def frame_score (w h : ℕ) (buf : List ℝ) : Option ℝ :=
  let mean := buf.sum / ((w * h : ℕ) : ℝ)
  if 0 < mean then some (45 - 20 * Real.logb 10 mean) else none

/-- The running `total += score` accumulation; any non-finite score makes
the total non-finite. -/
def total_score (scores : List (Option ℝ)) : Option ℝ :=
  scores.foldl
    (fun acc s =>
      match acc, s with
      | some a, some b => some (a + b)
      | _, _ => none)
    (some 0)

/-- The final `Total: total / num_frames` line of main.rs.  With zero
frames this is `0.0 / 0.0 = NaN` (no error is raised), modelled as
`none`. -/
def overall_score (w h : ℕ) (bufs : List (List ℝ)) : Option ℝ :=
  match total_score (bufs.map (frame_score w h)) with
  | some total => if bufs.length = 0 then none else some (total / (bufs.length : ℝ))
  | none => none

/-- The whole run: the row function is selected once, before any frame or
row is processed, and every row of every frame uses that same function.
`none` models the `unreachable!()` dispatch failure. -/
def process_video (bd xdec ydec : ℕ) (simd avx2Supported : Bool) (w h : ℕ)
    (frames : List ((List ℕ × List ℕ × List ℕ) × (List ℕ × List ℕ × List ℕ))) :
    Option (List (List ℝ)) :=
  match get_delta_e_row_fn bd xdec simd avx2Supported with
  | none => none
  | some k =>
      some (frames.map (fun fr =>
        process_frame bd xdec ydec k w h
          fr.1.1 fr.1.2.1 fr.1.2.2 fr.2.1 fr.2.2.1 fr.2.2.2))

/-! ## Specification-side converter (for the refinement claim C3)

These definitions follow the specification's wording: offsets and
excursions scaled by `2^(d-8)`, a genuine 3x3 matrix application, gamma
decode written with divisions, and the XYZ→Lab nonlinearity with
ε = 216/24389 and κ = 24389/27, normalizing X by 0.95047 and Z by 1.08883
and leaving Y unnormalized. -/

/-- Spec-side sample → RGB: subtract the coded offset, divide by the coded
excursion, apply the fixed BT.709 matrix; no clamping. -/
def specSampleToRgb (d : ℕ) (s : ℕ × ℕ × ℕ) : ℝ × ℝ × ℝ :=
  let ex : ℝ := 2 ^ (d - 8)
  let yp := ((s.1 : ℝ) - 16 * ex) / (219 * ex)
  let up := ((s.2.1 : ℝ) - 128 * ex) / (224 * ex)
  let vp := ((s.2.2 : ℝ) - 128 * ex) / (224 * ex)
  (1 * yp + 0 * up + 1.28033 * vp,
   1 * yp + (-0.21482) * up + (-0.38059) * vp,
   1 * yp + 2.12798 * up + 0 * vp)

/-- Spec-side gamma decode: linear with slope 1/12.92 at or below 10/255,
power law above. -/
def specGammaDecode (c : ℝ) : ℝ :=
  if c ≤ 10 / 255 then c / 12.92 else pow24Val ((c + 0.055) / 1.055)

/-- Spec-side XYZ→Lab nonlinearity: cube root above ε, linear ramp below
using κ. -/
def specLabMap (t : ℝ) : ℝ :=
  if t > 216 / 24389 then t ^ ((1 : ℝ) / 3) else ((24389 / 27) * t + 16) / 116

/-- Spec-side RGB → CIELAB: gamma decode, fixed RGB→XYZ matrix, then the
Lab nonlinearity with X normalized by 0.95047, Z by 1.08883, Y
unnormalized. -/
def specRgbToLab (rgb : ℝ × ℝ × ℝ) : Lab :=
  let r := specGammaDecode rgb.1
  let g := specGammaDecode rgb.2.1
  let b := specGammaDecode rgb.2.2
  let bigX := r * 0.4124564390896921 + g * 0.357576077643909 + b * 0.18043748326639894
  let bigY := r * 0.21267285140562248 + g * 0.715152155287818 + b * 0.07217499330655958
  let bigZ := r * 0.019333895582329317 + g * 0.119192025881303 + b * 0.9503040785363677
  let fx := specLabMap (bigX / 0.95047)
  let fy := specLabMap bigY
  let fz := specLabMap (bigZ / 1.08883)
  ⟨116 * fy - 16, 500 * (fx - fy), 200 * (fy - fz)⟩

/-- Spec-side converter: sample triple to CIELAB at bit depth `d`. -/
def specLabOfSample (d : ℕ) (s : ℕ × ℕ × ℕ) : Lab :=
  specRgbToLab (specSampleToRgb d s)

end

section Theorems

open Real

/-! ## C3: the converter refines the specification formula -/

theorem rgb_to_xyz_map_eq_spec (c : ℝ) : rgb_to_xyz_map c = specGammaDecode c := by
  unfold rgb_to_xyz_map specGammaDecode
  rcases le_or_lt c (10 / 255) with h | h
  · rw [if_neg (by norm_num; linarith), if_pos (by norm_num; linarith)]
    ring
  · rw [if_pos (by norm_num; linarith), if_neg (by norm_num; linarith)]
    norm_num
    congr 1
    ring

theorem xyz_to_lab_map_eq_spec (c : ℝ) : xyz_to_lab_map c = specLabMap c := by
  unfold xyz_to_lab_map specLabMap EPSILON KAPPA
  rcases le_or_lt c (216 / 24389) with h | h
  · rw [if_neg (by norm_num; linarith), if_neg (by norm_num; linarith)]
    ring
  · rw [if_pos (by norm_num; linarith), if_pos (by norm_num; linarith)]
    norm_num

theorem rgb_to_lab_eq_spec (rgb : ℝ × ℝ × ℝ) : rgb_to_lab rgb = specRgbToLab rgb := by
  unfold rgb_to_lab xyz_to_lab rgb_to_xyz specRgbToLab
  simp only [rgb_to_xyz_map_eq_spec, xyz_to_lab_map_eq_spec]
  have harg1 : ∀ x : ℝ, x * (1.0 / 0.95047) = x / 0.95047 := fun x => by ring
  have harg2 : ∀ x : ℝ, x * (1.0 / 1.08883) = x / 1.08883 := fun x => by ring
  rw [harg1, harg2]
  norm_num

theorem yuv_to_rgb_eq_spec (d : ℕ) (s : ℕ × ℕ × ℕ) :
    yuv_to_rgb d s = specSampleToRgb d s := by
  unfold yuv_to_rgb specSampleToRgb
  refine Prod.ext (by ring) (Prod.ext (by ring) (by ring))

/-- C3: for every sample triple at any supported bit depth, the scalar
converter computes RGB by subtracting the coded offsets (16/128 scaled by
`2^(d-8)`), dividing by the coded excursions (219/224 scaled), applying the
fixed BT.709 matrix with no clamping, and then computes CIELAB via the
sRGB-style gamma decode, the fixed RGB→XYZ matrix, and the XYZ→Lab
nonlinearity with ε = 216/24389 and κ = 24389/27, normalizing X by 0.95047
and Z by 1.08883 and leaving Y unnormalized; `delta_e_scalar` is exactly
the CIEDE2000 distance of the two converted points. -/
theorem claim_C3_converter_formula (d : ℕ) (s1 s2 : ℕ × ℕ × ℕ) :
    rgb_to_lab (yuv_to_rgb d s1) = specLabOfSample d s1 ∧
    delta_e_scalar d s1 s2 =
      DE2000 (specLabOfSample d s1) (specLabOfSample d s2) K_SUB := by
  have key : ∀ s, rgb_to_lab (yuv_to_rgb d s) = specLabOfSample d s := by
    intro s
    rw [yuv_to_rgb_eq_spec, specLabOfSample, rgb_to_lab_eq_spec]
  exact ⟨key s1, by rw [delta_e_scalar, key s1, key s2]⟩

/-! ## List combinator lemmas -/

section ListLemmas

variable {α β γ δ ε ζ η ρ : Type}

theorem twice_nil : twice ([] : List α) = [] := by
  simp [twice, interleave]

theorem twice_cons (a : α) (l : List α) : twice (a :: l) = a :: a :: twice l := by
  simp [twice, interleave]

theorem twice_append (l1 l2 : List α) : twice (l1 ++ l2) = twice l1 ++ twice l2 := by
  induction l1 with
  | nil => simp [twice_nil]
  | cons a l ih => simp [twice_cons, ih]

theorem twice_length (l : List α) : (twice l).length = 2 * l.length := by
  induction l with
  | nil => simp [twice_nil]
  | cons a l ih => simp [twice_cons, ih]; omega

theorem twice_getD (l : List α) (i : ℕ) (d : α) (h : i < 2 * l.length) :
    (twice l).getD i d = l.getD (i / 2) d := by
  induction l generalizing i with
  | nil => simp at h
  | cons a l ih =>
    rcases i with _ | _ | k
    · simp [twice_cons]
    · simp [twice_cons]
    · have hk : k < 2 * l.length := by simp at h; omega
      have : (k + 2) / 2 = k / 2 + 1 := by omega
      simp only [twice_cons, List.getD_cons_succ, this]
      exact ih k hk

theorem zip7_cons (f : α → β → γ → δ → ε → ζ → η → ρ) (a as b bs c cs d ds e es g gs h hs) :
    zip7 f (a :: as) (b :: bs) (c :: cs) (d :: ds) (e :: es) (g :: gs) (h :: hs) =
      f a b c d e g h :: zip7 f as bs cs ds es gs hs := rfl

theorem zip7_nil2 (f : α → β → γ → δ → ε → ζ → η → ρ) (as cs ds es gs hs) :
    zip7 f as [] cs ds es gs hs = [] := by cases as <;> rfl

theorem zip7_length_all (f : α → β → γ → δ → ε → ζ → η → ρ) (n : ℕ) :
    ∀ as bs cs ds es gs hs, as.length = n → bs.length = n → cs.length = n →
      ds.length = n → es.length = n → gs.length = n → hs.length = n →
      (zip7 f as bs cs ds es gs hs).length = n := by
  induction n with
  | zero =>
    intro as bs cs ds es gs hs h1 _ _ _ _ _ _
    rw [List.eq_nil_of_length_eq_zero h1]
    rfl
  | succ n ih =>
    intro as bs cs ds es gs hs h1 h2 h3 h4 h5 h6 h7
    rcases as with _ | ⟨a, as⟩; · simp at h1
    rcases bs with _ | ⟨b, bs⟩; · simp at h2
    rcases cs with _ | ⟨c, cs⟩; · simp at h3
    rcases ds with _ | ⟨d, ds⟩; · simp at h4
    rcases es with _ | ⟨e, es⟩; · simp at h5
    rcases gs with _ | ⟨g, gs⟩; · simp at h6
    rcases hs with _ | ⟨h, hs⟩; · simp at h7
    simp only [zip7_cons, List.length_cons] at *
    exact congrArg Nat.succ (ih as bs cs ds es gs hs (by omega) (by omega) (by omega)
      (by omega) (by omega) (by omega) (by omega))

theorem zip7_lt_length (f : α → β → γ → δ → ε → ζ → η → ρ) (i : ℕ) :
    ∀ as bs cs ds es gs hs, i < as.length → i < bs.length → i < cs.length →
      i < ds.length → i < es.length → i < gs.length → i < hs.length →
      i < (zip7 f as bs cs ds es gs hs).length := by
  induction i with
  | zero =>
    intro as bs cs ds es gs hs h1 h2 h3 h4 h5 h6 h7
    rcases as with _ | ⟨a, as⟩; · simp at h1
    rcases bs with _ | ⟨b, bs⟩; · simp at h2
    rcases cs with _ | ⟨c, cs⟩; · simp at h3
    rcases ds with _ | ⟨d, ds⟩; · simp at h4
    rcases es with _ | ⟨e, es⟩; · simp at h5
    rcases gs with _ | ⟨g, gs⟩; · simp at h6
    rcases hs with _ | ⟨h, hs⟩; · simp at h7
    simp [zip7_cons]
  | succ i ih =>
    intro as bs cs ds es gs hs h1 h2 h3 h4 h5 h6 h7
    rcases as with _ | ⟨a, as⟩; · simp at h1
    rcases bs with _ | ⟨b, bs⟩; · simp at h2
    rcases cs with _ | ⟨c, cs⟩; · simp at h3
    rcases ds with _ | ⟨d, ds⟩; · simp at h4
    rcases es with _ | ⟨e, es⟩; · simp at h5
    rcases gs with _ | ⟨g, gs⟩; · simp at h6
    rcases hs with _ | ⟨h, hs⟩; · simp at h7
    simp only [zip7_cons, List.length_cons] at *
    have := ih as bs cs ds es gs hs (by omega) (by omega) (by omega) (by omega)
      (by omega) (by omega) (by omega)
    omega

theorem zip7_getD (f : α → β → γ → δ → ε → ζ → η → ρ)
    (da : α) (db : β) (dc : γ) (dd : δ) (de : ε) (dg : ζ) (dh : η) (dρ : ρ) (i : ℕ) :
    ∀ as bs cs ds es gs hs, i < as.length → i < bs.length → i < cs.length →
      i < ds.length → i < es.length → i < gs.length → i < hs.length →
      (zip7 f as bs cs ds es gs hs).getD i dρ =
        f (as.getD i da) (bs.getD i db) (cs.getD i dc) (ds.getD i dd)
          (es.getD i de) (gs.getD i dg) (hs.getD i dh) := by
  induction i with
  | zero =>
    intro as bs cs ds es gs hs h1 h2 h3 h4 h5 h6 h7
    rcases as with _ | ⟨a, as⟩; · simp at h1
    rcases bs with _ | ⟨b, bs⟩; · simp at h2
    rcases cs with _ | ⟨c, cs⟩; · simp at h3
    rcases ds with _ | ⟨d, ds⟩; · simp at h4
    rcases es with _ | ⟨e, es⟩; · simp at h5
    rcases gs with _ | ⟨g, gs⟩; · simp at h6
    rcases hs with _ | ⟨h, hs⟩; · simp at h7
    simp [zip7_cons]
  | succ i ih =>
    intro as bs cs ds es gs hs h1 h2 h3 h4 h5 h6 h7
    rcases as with _ | ⟨a, as⟩; · simp at h1
    rcases bs with _ | ⟨b, bs⟩; · simp at h2
    rcases cs with _ | ⟨c, cs⟩; · simp at h3
    rcases ds with _ | ⟨d, ds⟩; · simp at h4
    rcases es with _ | ⟨e, es⟩; · simp at h5
    rcases gs with _ | ⟨g, gs⟩; · simp at h6
    rcases hs with _ | ⟨h, hs⟩; · simp at h7
    simp only [zip7_cons, List.length_cons, List.getD_cons_succ] at *
    exact ih as bs cs ds es gs hs (by omega) (by omega) (by omega) (by omega)
      (by omega) (by omega) (by omega)

theorem zip7_append (f : α → β → γ → δ → ε → ζ → η → ρ) (n : ℕ) :
    ∀ as1 bs1 cs1 ds1 es1 gs1 hs1 (as2 : List α) (bs2 : List β) (cs2 : List γ)
      (ds2 : List δ) (es2 : List ε) (gs2 : List ζ) (hs2 : List η),
      as1.length = n → bs1.length = n → cs1.length = n → ds1.length = n →
      es1.length = n → gs1.length = n → hs1.length = n →
      zip7 f (as1 ++ as2) (bs1 ++ bs2) (cs1 ++ cs2) (ds1 ++ ds2) (es1 ++ es2)
          (gs1 ++ gs2) (hs1 ++ hs2) =
        zip7 f as1 bs1 cs1 ds1 es1 gs1 hs1 ++ zip7 f as2 bs2 cs2 ds2 es2 gs2 hs2 := by
  induction n with
  | zero =>
    intro as1 bs1 cs1 ds1 es1 gs1 hs1 as2 bs2 cs2 ds2 es2 gs2 hs2 h1 h2 h3 h4 h5 h6 h7
    rw [List.eq_nil_of_length_eq_zero h1, List.eq_nil_of_length_eq_zero h2,
      List.eq_nil_of_length_eq_zero h3, List.eq_nil_of_length_eq_zero h4,
      List.eq_nil_of_length_eq_zero h5, List.eq_nil_of_length_eq_zero h6,
      List.eq_nil_of_length_eq_zero h7]
    simp [zip7]
  | succ n ih =>
    intro as1 bs1 cs1 ds1 es1 gs1 hs1 as2 bs2 cs2 ds2 es2 gs2 hs2 h1 h2 h3 h4 h5 h6 h7
    rcases as1 with _ | ⟨a, as1⟩; · simp at h1
    rcases bs1 with _ | ⟨b, bs1⟩; · simp at h2
    rcases cs1 with _ | ⟨c, cs1⟩; · simp at h3
    rcases ds1 with _ | ⟨d, ds1⟩; · simp at h4
    rcases es1 with _ | ⟨e, es1⟩; · simp at h5
    rcases gs1 with _ | ⟨g, gs1⟩; · simp at h6
    rcases hs1 with _ | ⟨h, hs1⟩; · simp at h7
    simp only [List.length_cons] at *
    simp only [List.cons_append, zip7_cons, List.length_cons]
    rw [ih as1 bs1 cs1 ds1 es1 gs1 hs1 as2 bs2 cs2 ds2 es2 gs2 hs2 (by omega) (by omega)
      (by omega) (by omega) (by omega) (by omega) (by omega)]

theorem chunksOf_nil (n : ℕ) : chunksOf n ([] : List α) = [] := by
  simp [chunksOf]

theorem chunksOf_cons (n : ℕ) (a : α) (l : List α) :
    chunksOf (n + 1) (a :: l) =
      (a :: l).take (n + 1) :: chunksOf (n + 1) ((a :: l).drop (n + 1)) := by
  simp [chunksOf]

theorem chunksOf_append (n : ℕ) (k : ℕ) :
    ∀ l1 l2 : List α, l1.length = (n + 1) * k →
      chunksOf (n + 1) (l1 ++ l2) = chunksOf (n + 1) l1 ++ chunksOf (n + 1) l2 := by
  induction k with
  | zero =>
    intro l1 l2 h
    rw [List.eq_nil_of_length_eq_zero (by omega : l1.length = 0)]
    simp [chunksOf_nil]
  | succ k ih =>
    intro l1 l2 h
    rw [Nat.mul_succ] at h
    rcases l1 with _ | ⟨a, l1⟩
    · simp at h; omega
    simp only [List.length_cons] at h
    have hlen : (n + 1) ≤ (a :: l1).length := by simp; omega
    have hdrop : ((a :: l1).drop (n + 1)).length = (n + 1) * k := by
      simp only [List.length_drop, List.length_cons]; omega
    calc chunksOf (n + 1) ((a :: l1) ++ l2)
        = ((a :: l1) ++ l2).take (n + 1) ::
            chunksOf (n + 1) (((a :: l1) ++ l2).drop (n + 1)) := chunksOf_cons n a (l1 ++ l2)
      _ = (a :: l1).take (n + 1) ::
            chunksOf (n + 1) ((a :: l1).drop (n + 1) ++ l2) := by
          rw [List.take_append_of_le_length hlen, List.drop_append_of_le_length hlen]
      _ = (a :: l1).take (n + 1) ::
            (chunksOf (n + 1) ((a :: l1).drop (n + 1)) ++ chunksOf (n + 1) l2) := by
          rw [ih _ _ hdrop]
      _ = chunksOf (n + 1) (a :: l1) ++ chunksOf (n + 1) l2 := by
          rw [chunksOf_cons]; rfl

theorem chunksOf_length_exact (n k : ℕ) :
    ∀ l : List α, l.length = (n + 1) * k → (chunksOf (n + 1) l).length = k := by
  induction k with
  | zero =>
    intro l h
    rw [List.eq_nil_of_length_eq_zero (by omega : l.length = 0)]
    rw [chunksOf_nil]
    rfl
  | succ k ih =>
    intro l h
    rw [Nat.mul_succ] at h
    rcases l with _ | ⟨a, l⟩
    · simp at h; omega
    simp only [List.length_cons] at h
    rw [chunksOf_cons]
    have hdrop : ((a :: l).drop (n + 1)).length = (n + 1) * k := by
      simp only [List.length_drop, List.length_cons]; omega
    simp only [List.length_cons, ih _ hdrop]

theorem getD_append_left (l1 l2 : List α) (i : ℕ) (d : α) (h : i < l1.length) :
    (l1 ++ l2).getD i d = l1.getD i d := by
  simp [List.getD, List.getElem?_append, h]

theorem getD_append_right (l1 l2 : List α) (i : ℕ) (d : α) :
    (l1 ++ l2).getD (l1.length + i) d = l2.getD i d := by
  simp [List.getD, List.getElem?_append_right (Nat.le_add_right _ _)]

theorem getD_drop (l : List α) (s i : ℕ) (d : α) :
    (l.drop s).getD i d = l.getD (s + i) d := by
  simp [List.getD, List.getElem?_drop]

theorem sliceOf_getD (l : List α) (s len i : ℕ) (d : α) (h : i < len) :
    (sliceOf l s len).getD i d = l.getD (s + i) d := by
  simp [sliceOf, List.getD, List.getElem?_take, h, List.getElem?_drop]

theorem zip7_nil1 (f : α → β → γ → δ → ε → ζ → η → ρ) (bs cs ds es gs hs) :
    zip7 f [] bs cs ds es gs hs = [] := rfl

theorem zip7_nil7 (f : α → β → γ → δ → ε → ζ → η → ρ) (as bs cs ds es gs) :
    zip7 f as bs cs ds es gs [] = [] := by
  cases as <;> cases bs <;> cases cs <;> cases ds <;> cases es <;> cases gs <;> rfl

theorem zip7_length_le_last (f : α → β → γ → δ → ε → ζ → η → ρ) :
    ∀ hs as bs cs ds es gs, (zip7 f as bs cs ds es gs hs).length ≤ hs.length := by
  intro hs
  induction hs with
  | nil => intro as bs cs ds es gs; rw [zip7_nil7]; exact le_rfl
  | cons h hs ih =>
    intro as bs cs ds es gs
    rcases as with _ | ⟨a, as⟩; · rw [zip7_nil1]; simp
    rcases bs with _ | ⟨b, bs⟩; · rw [zip7_nil2]; simp
    rcases cs with _ | ⟨c, cs⟩; · cases ds <;> cases es <;> cases gs <;> simp [zip7]
    rcases ds with _ | ⟨d, ds⟩; · cases es <;> cases gs <;> simp [zip7]
    rcases es with _ | ⟨e, es⟩; · cases gs <;> simp [zip7]
    rcases gs with _ | ⟨g, gs⟩; · simp [zip7]
    rw [zip7_cons]
    simpa using ih as bs cs ds es gs

theorem flatten_getD (w : ℕ) (d : ρ) :
    ∀ (L : List (List ρ)) (r c : ℕ), (∀ l ∈ L, l.length = w) → r < L.length → c < w →
      L.flatten.getD (r * w + c) d = (L.getD r []).getD c d := by
  intro L
  induction L with
  | nil => intro r c _ hr _; simp at hr
  | cons l L ih =>
    intro r c hall hr hc
    have hl : l.length = w := hall l (List.mem_cons_self l L)
    cases r with
    | zero =>
      rw [List.flatten_cons, Nat.zero_mul, Nat.zero_add,
        getD_append_left _ _ _ _ (by omega)]
      rfl
    | succ r =>
      rw [List.flatten_cons,
        show (r + 1) * w + c = l.length + (r * w + c) from by rw [hl]; ring,
        getD_append_right]
      rw [show (l :: L).getD (r + 1) [] = L.getD r [] from rfl]
      exact ih r c (fun x hx => hall x (List.mem_cons_of_mem l hx)) (by simpa using hr) hc

theorem getD_take (l : List α) (n i : ℕ) (d : α) (h : i < n) :
    (l.take n).getD i d = l.getD i d := by
  simp [List.getD, List.getElem?_take, h]

end ListLemmas

/-! ## Row kernel equivalence: AVX2 = scalar (the core of C1 and C9) -/

section RowEquivalence

theorem body8_written (y1 u1 v1 y2 u2 v2 : List ℕ) (res : List ℝ) (n : ℕ)
    (h1 : y1.length = n) (h2 : 2 * u1.length = n) (h3 : 2 * v1.length = n)
    (h4 : y2.length = n) (h5 : 2 * u2.length = n) (h6 : 2 * v2.length = n)
    (h7 : res.length = n) :
    delta_e_row_body8 y1 u1 v1 y2 u2 v2 res =
      zip7 (fun a b c d e f (_ : ℝ) => delta_e_scalar 8 (a, b, c) (d, e, f))
        y1 (twice u1) (twice v1) y2 (twice u2) (twice v2) res := by
  have hz : (zip7 (fun a b c d e f (_ : ℝ) => delta_e_scalar 8 (a, b, c) (d, e, f))
      y1 (twice u1) (twice v1) y2 (twice u2) (twice v2) res).length = n :=
    zip7_length_all _ n y1 (twice u1) (twice v1) y2 (twice u2) (twice v2) res
      h1 (by rw [twice_length]; omega) (by rw [twice_length]; omega) h4
      (by rw [twice_length]; omega) (by rw [twice_length]; omega) h7
  simp only [delta_e_row_body8]
  rw [hz, ← h7, List.drop_length, List.append_nil]

theorem body8_length (y1 u1 v1 y2 u2 v2 : List ℕ) (res : List ℝ) (n : ℕ)
    (h1 : y1.length = n) (h2 : 2 * u1.length = n) (h3 : 2 * v1.length = n)
    (h4 : y2.length = n) (h5 : 2 * u2.length = n) (h6 : 2 * v2.length = n)
    (h7 : res.length = n) :
    (delta_e_row_body8 y1 u1 v1 y2 u2 v2 res).length = n := by
  rw [body8_written y1 u1 v1 y2 u2 v2 res n h1 h2 h3 h4 h5 h6 h7]
  exact zip7_length_all _ n y1 (twice u1) (twice v1) y2 (twice u2) (twice v2) res
    h1 (by rw [twice_length]; omega) (by rw [twice_length]; omega) h4
    (by rw [twice_length]; omega) (by rw [twice_length]; omega) h7

/-- The vector lanes of the 8-bit AVX2 full-chunk branch compute exactly
the scalar body of the first eight pixels. -/
theorem lanes8_eq (y1 u1 v1 y2 u2 v2 : List ℕ) (res : List ℝ)
    (hy1 : 8 ≤ y1.length) (hu1 : 4 ≤ u1.length) (hv1 : 4 ≤ v1.length)
    (hy2 : 8 ≤ y2.length) (hu2 : 4 ≤ u2.length) (hv2 : 4 ≤ v2.length)
    (hres : 8 ≤ res.length) :
    (List.range 8).map (fun i =>
        delta_e_scalar 8 (y1.getD i 0, u1.getD (i / 2) 0, v1.getD (i / 2) 0)
          (y2.getD i 0, u2.getD (i / 2) 0, v2.getD (i / 2) 0)) =
      delta_e_row_body8 (y1.take 8) (u1.take 4) (v1.take 4)
        (y2.take 8) (u2.take 4) (v2.take 4) (res.take 8) := by
  have hT : ∀ (l : List ℕ), 8 ≤ l.length → (l.take 8).length = 8 := by
    intro l h; rw [List.length_take]; omega
  have hT4 : ∀ (l : List ℕ), 4 ≤ l.length → (l.take 4).length = 4 := by
    intro l h; rw [List.length_take]; omega
  have hTr : (res.take 8).length = 8 := by rw [List.length_take]; omega
  have hbody := body8_written (y1.take 8) (u1.take 4) (v1.take 4)
    (y2.take 8) (u2.take 4) (v2.take 4) (res.take 8) 8
    (hT _ hy1) (by rw [hT4 _ hu1]) (by rw [hT4 _ hv1]) (hT _ hy2)
    (by rw [hT4 _ hu2]) (by rw [hT4 _ hv2]) hTr
  have hlen := body8_length (y1.take 8) (u1.take 4) (v1.take 4)
    (y2.take 8) (u2.take 4) (v2.take 4) (res.take 8) 8
    (hT _ hy1) (by rw [hT4 _ hu1]) (by rw [hT4 _ hv1]) (hT _ hy2)
    (by rw [hT4 _ hu2]) (by rw [hT4 _ hv2]) hTr
  apply List.ext_getElem
  · rw [hlen]; simp
  · intro i hi1 hi2
    have hi : i < 8 := by simp at hi1; omega
    rw [← List.getD_eq_getElem _ (0 : ℝ) hi1, ← List.getD_eq_getElem _ (0 : ℝ) hi2]
    rw [hbody]
    rw [zip7_getD _ 0 0 0 0 0 0 0 0 i (y1.take 8) (twice (u1.take 4)) (twice (v1.take 4))
      (y2.take 8) (twice (u2.take 4)) (twice (v2.take 4)) (res.take 8)
      (by rw [hT _ hy1]; exact hi) (by rw [twice_length, hT4 _ hu1]; omega)
      (by rw [twice_length, hT4 _ hv1]; omega) (by rw [hT _ hy2]; exact hi)
      (by rw [twice_length, hT4 _ hu2]; omega) (by rw [twice_length, hT4 _ hv2]; omega)
      (by rw [hTr]; exact hi)]
    rw [twice_getD (u1.take 4) i 0 (by rw [hT4 _ hu1]; omega),
      twice_getD (v1.take 4) i 0 (by rw [hT4 _ hv1]; omega),
      twice_getD (u2.take 4) i 0 (by rw [hT4 _ hu2]; omega),
      twice_getD (v2.take 4) i 0 (by rw [hT4 _ hv2]; omega)]
    rw [getD_take y1 8 i 0 hi, getD_take y2 8 i 0 hi,
      getD_take u1 4 (i / 2) 0 (by omega), getD_take v1 4 (i / 2) 0 (by omega),
      getD_take u2 4 (i / 2) 0 (by omega), getD_take v2 4 (i / 2) 0 (by omega)]
    rw [List.getD_eq_getElem _ (0 : ℝ) hi1]
    simp [List.getElem_map, List.getElem_range]

/-- The scalar body processes a leading 8-pixel block independently of the
rest of the row. -/
theorem body8_split (y1a y1b u1a u1b v1a v1b y2a y2b u2a u2b v2a v2b : List ℕ)
    (ra rb : List ℝ)
    (hy1 : y1a.length = 8) (hu1 : u1a.length = 4) (hv1 : v1a.length = 4)
    (hy2 : y2a.length = 8) (hu2 : u2a.length = 4) (hv2 : v2a.length = 4)
    (hra : ra.length = 8) :
    delta_e_row_body8 (y1a ++ y1b) (u1a ++ u1b) (v1a ++ v1b) (y2a ++ y2b)
        (u2a ++ u2b) (v2a ++ v2b) (ra ++ rb) =
      delta_e_row_body8 y1a u1a v1a y2a u2a v2a ra ++
        delta_e_row_body8 y1b u1b v1b y2b u2b v2b rb := by
  have ht1 : (twice u1a).length = 8 := by rw [twice_length, hu1]
  have ht2 : (twice v1a).length = 8 := by rw [twice_length, hv1]
  have ht3 : (twice u2a).length = 8 := by rw [twice_length, hu2]
  have ht4 : (twice v2a).length = 8 := by rw [twice_length, hv2]
  have hhead := body8_written y1a u1a v1a y2a u2a v2a ra 8 hy1 (by omega) (by omega)
    hy2 (by omega) (by omega) hra
  simp only [delta_e_row_body8, twice_append]
  rw [zip7_append _ 8 y1a (twice u1a) (twice v1a) y2a (twice u2a) (twice v2a) ra
    y1b (twice u1b) (twice v1b) y2b (twice u2b) (twice v2b) rb
    hy1 ht1 ht2 hy2 ht3 ht4 hra]
  have hzh : (zip7 (fun a b c d e f (_ : ℝ) => delta_e_scalar 8 (a, b, c) (d, e, f))
      y1a (twice u1a) (twice v1a) y2a (twice u2a) (twice v2a) ra).length = 8 :=
    zip7_length_all _ 8 y1a (twice u1a) (twice v1a) y2a (twice u2a) (twice v2a) ra
      hy1 ht1 ht2 hy2 ht3 ht4 hra
  rw [List.length_append, hzh]
  rw [show ∀ k : ℕ, (ra ++ rb).drop (8 + k) = rb.drop k from fun k => by
    rw [← hra]; exact List.drop_append k]
  rw [show List.drop 8 ra = [] from by rw [← hra, List.drop_length],
    List.append_nil, List.append_assoc]

/-- C1's core, 8-bit case: on rows shaped as main.rs produces them
(`|y| = |res| = w`, `|u| = |v| = w/2`), the AVX2 kernel computes exactly
the scalar kernel's output buffer. -/
theorem avx2_row8_eq (w : ℕ) : ∀ (y1 u1 v1 y2 u2 v2 : List ℕ) (res : List ℝ),
    y1.length = w → u1.length = w / 2 → v1.length = w / 2 →
    y2.length = w → u2.length = w / 2 → v2.length = w / 2 → res.length = w →
    delta_e_row_avx2_8 y1 u1 v1 y2 u2 v2 res =
      delta_e_row_body8 y1 u1 v1 y2 u2 v2 res := by
  induction w using Nat.strong_induction_on with
  | _ w IH =>
  intro y1 u1 v1 y2 u2 v2 res h1 h2 h3 h4 h5 h6 h7
  rcases Nat.lt_or_ge w 2 with hw2 | hw2
  · -- w ≤ 1: the chroma rows are empty, nothing is written.
    have hu : u1 = [] := List.eq_nil_of_length_eq_zero (by omega)
    have hscal : delta_e_row_body8 y1 u1 v1 y2 u2 v2 res = res := by
      simp only [delta_e_row_body8, hu, twice_nil, zip7_nil2, List.length_nil,
        List.drop_zero, List.nil_append]
    rcases Nat.eq_zero_or_pos w with hw0 | hwpos
    · have hy : y1 = [] := List.eq_nil_of_length_eq_zero (by omega)
      rw [delta_e_row_avx2_8, dif_pos (Or.inl hy), hscal]
    · rw [delta_e_row_avx2_8, dif_pos (Or.inr (Or.inl hu)), hscal]
  · have hne : ¬(y1 = [] ∨ u1 = [] ∨ v1 = [] ∨ y2 = [] ∨ u2 = [] ∨ v2 = [] ∨ res = []) := by
      intro hc
      rcases hc with hc | hc | hc | hc | hc | hc | hc
      · rw [hc] at h1; simp at h1; omega
      · rw [hc] at h2; simp at h2; omega
      · rw [hc] at h3; simp at h3; omega
      · rw [hc] at h4; simp at h4; omega
      · rw [hc] at h5; simp at h5; omega
      · rw [hc] at h6; simp at h6; omega
      · rw [hc] at h7; simp at h7; omega
    rcases Nat.lt_or_ge w 8 with hw8 | hw8
    · -- 2 ≤ w < 8: one short trailing chunk, handled by the scalar fallback.
      rw [delta_e_row_avx2_8, dif_neg hne, if_pos (by omega : y1.length < 8)]
      rw [List.take_of_length_le (by omega : y1.length ≤ 8),
        List.take_of_length_le (by omega : u1.length ≤ 4),
        List.take_of_length_le (by omega : v1.length ≤ 4),
        List.take_of_length_le (by omega : y2.length ≤ 8),
        List.take_of_length_le (by omega : u2.length ≤ 4),
        List.take_of_length_le (by omega : v2.length ≤ 4),
        List.take_of_length_le (by omega : res.length ≤ 8)]
      rw [List.drop_eq_nil_of_le (by omega : y1.length ≤ 8)]
      rw [delta_e_row_avx2_8, dif_pos (Or.inl rfl)]
      rw [List.drop_eq_nil_of_le (by omega : res.length ≤ 8), List.append_nil]
    · -- w ≥ 8: one full vector chunk, then induction on the rest.
      have hwh : 4 ≤ w / 2 := by omega
      rw [delta_e_row_avx2_8, dif_neg hne, if_neg (by omega : ¬y1.length < 8)]
      have hrec := IH (w - 8) (by omega) (y1.drop 8) (u1.drop 4) (v1.drop 4)
        (y2.drop 8) (u2.drop 4) (v2.drop 4) (res.drop 8)
        (by simp only [List.length_drop]; omega)
        (by simp only [List.length_drop]; omega)
        (by simp only [List.length_drop]; omega)
        (by simp only [List.length_drop]; omega)
        (by simp only [List.length_drop]; omega)
        (by simp only [List.length_drop]; omega)
        (by simp only [List.length_drop]; omega)
      rw [hrec]
      rw [lanes8_eq y1 u1 v1 y2 u2 v2 res (by omega) (by omega) (by omega)
        (by omega) (by omega) (by omega) (by omega)]
      conv_rhs =>
        rw [← List.take_append_drop 8 y1, ← List.take_append_drop 4 u1,
          ← List.take_append_drop 4 v1, ← List.take_append_drop 8 y2,
          ← List.take_append_drop 4 u2, ← List.take_append_drop 4 v2,
          ← List.take_append_drop 8 res]
      rw [body8_split _ _ _ _ _ _ _ _ _ _ _ _ _ _
        (by rw [List.length_take]; omega) (by rw [List.length_take]; omega)
        (by rw [List.length_take]; omega) (by rw [List.length_take]; omega)
        (by rw [List.length_take]; omega) (by rw [List.length_take]; omega)
        (by rw [List.length_take]; omega)]

/-! ### The 16-bit kernels -/

theorem toU16_pair (a b : ℕ) : toU16 [a, b] = a + 256 * b := by
  simp [toU16]

theorem chunksOf2_getD (i : ℕ) : ∀ l : List ℕ, 2 * i + 1 < l.length →
    (chunksOf 2 l).getD i [] = [l.getD (2 * i) 0, l.getD (2 * i + 1) 0] := by
  induction i with
  | zero =>
    intro l h
    rcases l with _ | ⟨a, l⟩; · simp at h
    rcases l with _ | ⟨b, l⟩; · simp at h
    rw [show (2 : ℕ) = 1 + 1 from rfl, chunksOf_cons]
    simp
  | succ i ih =>
    intro l h
    rcases l with _ | ⟨a, l⟩; · simp at h
    rcases l with _ | ⟨b, l⟩
    · simp only [List.length_cons, List.length_nil] at h; omega
    rw [show (2 : ℕ) = 1 + 1 from rfl, chunksOf_cons]
    simp only [List.length_cons] at h
    have := ih l (by omega)
    simp only [List.take, List.drop, List.getD_cons_succ]
    rw [show 2 * (i + 1) = 2 * i + 1 + 1 from by omega] at *
    simpa using this

theorem body16_written (bd : ℕ) (y1 u1 v1 y2 u2 v2 : List ℕ) (res : List ℝ) (n : ℕ)
    (h1 : (chunksOf 2 y1).length = n) (h2 : 2 * (chunksOf 2 u1).length = n)
    (h3 : 2 * (chunksOf 2 v1).length = n) (h4 : (chunksOf 2 y2).length = n)
    (h5 : 2 * (chunksOf 2 u2).length = n) (h6 : 2 * (chunksOf 2 v2).length = n)
    (h7 : res.length = n) :
    delta_e_row_body16 bd y1 u1 v1 y2 u2 v2 res =
      zip7 (fun a b c d e f (_ : ℝ) =>
          delta_e_scalar bd (toU16 a, toU16 b, toU16 c) (toU16 d, toU16 e, toU16 f))
        (chunksOf 2 y1) (twice (chunksOf 2 u1)) (twice (chunksOf 2 v1))
        (chunksOf 2 y2) (twice (chunksOf 2 u2)) (twice (chunksOf 2 v2)) res := by
  have hz := zip7_length_all (fun a b c d e f (_ : ℝ) =>
      delta_e_scalar bd (toU16 a, toU16 b, toU16 c) (toU16 d, toU16 e, toU16 f)) n
    (chunksOf 2 y1) (twice (chunksOf 2 u1)) (twice (chunksOf 2 v1))
    (chunksOf 2 y2) (twice (chunksOf 2 u2)) (twice (chunksOf 2 v2)) res
    h1 (by rw [twice_length]; omega) (by rw [twice_length]; omega) h4
    (by rw [twice_length]; omega) (by rw [twice_length]; omega) h7
  simp only [delta_e_row_body16]
  rw [hz, ← h7, List.drop_length, List.append_nil]

theorem body16_length (bd : ℕ) (y1 u1 v1 y2 u2 v2 : List ℕ) (res : List ℝ) (n : ℕ)
    (h1 : (chunksOf 2 y1).length = n) (h2 : 2 * (chunksOf 2 u1).length = n)
    (h3 : 2 * (chunksOf 2 v1).length = n) (h4 : (chunksOf 2 y2).length = n)
    (h5 : 2 * (chunksOf 2 u2).length = n) (h6 : 2 * (chunksOf 2 v2).length = n)
    (h7 : res.length = n) :
    (delta_e_row_body16 bd y1 u1 v1 y2 u2 v2 res).length = n := by
  rw [body16_written bd y1 u1 v1 y2 u2 v2 res n h1 h2 h3 h4 h5 h6 h7]
  exact zip7_length_all _ n (chunksOf 2 y1) (twice (chunksOf 2 u1)) (twice (chunksOf 2 v1))
    (chunksOf 2 y2) (twice (chunksOf 2 u2)) (twice (chunksOf 2 v2)) res
    h1 (by rw [twice_length]; omega) (by rw [twice_length]; omega) h4
    (by rw [twice_length]; omega) (by rw [twice_length]; omega) h7

theorem chunks_take16_length (l : List ℕ) (h : 16 ≤ l.length) :
    (chunksOf 2 (l.take 16)).length = 8 :=
  chunksOf_length_exact 1 8 _ (by rw [List.length_take]; omega)

theorem chunks_take8_length (l : List ℕ) (h : 8 ≤ l.length) :
    (chunksOf 2 (l.take 8)).length = 4 :=
  chunksOf_length_exact 1 4 _ (by rw [List.length_take]; omega)

/-- The vector lanes of the 16-bit AVX2 full-chunk branch compute exactly
the scalar body of the first eight pixels. -/
theorem lanes16_eq (bd : ℕ) (y1 u1 v1 y2 u2 v2 : List ℕ) (res : List ℝ)
    (hy1 : 16 ≤ y1.length) (hu1 : 8 ≤ u1.length) (hv1 : 8 ≤ v1.length)
    (hy2 : 16 ≤ y2.length) (hu2 : 8 ≤ u2.length) (hv2 : 8 ≤ v2.length)
    (hres : 8 ≤ res.length) :
    (List.range 8).map (fun i =>
        delta_e_scalar bd
          (y1.getD (2 * i) 0 + 256 * y1.getD (2 * i + 1) 0,
           u1.getD (2 * (i / 2)) 0 + 256 * u1.getD (2 * (i / 2) + 1) 0,
           v1.getD (2 * (i / 2)) 0 + 256 * v1.getD (2 * (i / 2) + 1) 0)
          (y2.getD (2 * i) 0 + 256 * y2.getD (2 * i + 1) 0,
           u2.getD (2 * (i / 2)) 0 + 256 * u2.getD (2 * (i / 2) + 1) 0,
           v2.getD (2 * (i / 2)) 0 + 256 * v2.getD (2 * (i / 2) + 1) 0)) =
      delta_e_row_body16 bd (y1.take 16) (u1.take 8) (v1.take 8)
        (y2.take 16) (u2.take 8) (v2.take 8) (res.take 8) := by
  have hTr : (res.take 8).length = 8 := by rw [List.length_take]; omega
  have hbody := body16_written bd (y1.take 16) (u1.take 8) (v1.take 8)
    (y2.take 16) (u2.take 8) (v2.take 8) (res.take 8) 8
    (chunks_take16_length y1 hy1) (by rw [chunks_take8_length u1 hu1])
    (by rw [chunks_take8_length v1 hv1]) (chunks_take16_length y2 hy2)
    (by rw [chunks_take8_length u2 hu2]) (by rw [chunks_take8_length v2 hv2]) hTr
  have hlen := body16_length bd (y1.take 16) (u1.take 8) (v1.take 8)
    (y2.take 16) (u2.take 8) (v2.take 8) (res.take 8) 8
    (chunks_take16_length y1 hy1) (by rw [chunks_take8_length u1 hu1])
    (by rw [chunks_take8_length v1 hv1]) (chunks_take16_length y2 hy2)
    (by rw [chunks_take8_length u2 hu2]) (by rw [chunks_take8_length v2 hv2]) hTr
  apply List.ext_getElem
  · rw [hlen]; simp
  · intro i hi1 hi2
    have hi : i < 8 := by simp at hi1; omega
    rw [← List.getD_eq_getElem _ (0 : ℝ) hi1, ← List.getD_eq_getElem _ (0 : ℝ) hi2]
    rw [hbody]
    rw [zip7_getD _ [] [] [] [] [] [] 0 0 i
      (chunksOf 2 (y1.take 16)) (twice (chunksOf 2 (u1.take 8)))
      (twice (chunksOf 2 (v1.take 8))) (chunksOf 2 (y2.take 16))
      (twice (chunksOf 2 (u2.take 8))) (twice (chunksOf 2 (v2.take 8))) (res.take 8)
      (by rw [chunks_take16_length y1 hy1]; exact hi)
      (by rw [twice_length, chunks_take8_length u1 hu1]; omega)
      (by rw [twice_length, chunks_take8_length v1 hv1]; omega)
      (by rw [chunks_take16_length y2 hy2]; exact hi)
      (by rw [twice_length, chunks_take8_length u2 hu2]; omega)
      (by rw [twice_length, chunks_take8_length v2 hv2]; omega)
      (by rw [hTr]; exact hi)]
    rw [twice_getD (chunksOf 2 (u1.take 8)) i [] (by rw [chunks_take8_length u1 hu1]; omega),
      twice_getD (chunksOf 2 (v1.take 8)) i [] (by rw [chunks_take8_length v1 hv1]; omega),
      twice_getD (chunksOf 2 (u2.take 8)) i [] (by rw [chunks_take8_length u2 hu2]; omega),
      twice_getD (chunksOf 2 (v2.take 8)) i [] (by rw [chunks_take8_length v2 hv2]; omega)]
    rw [chunksOf2_getD i (y1.take 16) (by rw [List.length_take]; omega),
      chunksOf2_getD i (y2.take 16) (by rw [List.length_take]; omega),
      chunksOf2_getD (i / 2) (u1.take 8) (by rw [List.length_take]; omega),
      chunksOf2_getD (i / 2) (v1.take 8) (by rw [List.length_take]; omega),
      chunksOf2_getD (i / 2) (u2.take 8) (by rw [List.length_take]; omega),
      chunksOf2_getD (i / 2) (v2.take 8) (by rw [List.length_take]; omega)]
    rw [getD_take y1 16 (2 * i) 0 (by omega), getD_take y1 16 (2 * i + 1) 0 (by omega),
      getD_take y2 16 (2 * i) 0 (by omega), getD_take y2 16 (2 * i + 1) 0 (by omega),
      getD_take u1 8 (2 * (i / 2)) 0 (by omega), getD_take u1 8 (2 * (i / 2) + 1) 0 (by omega),
      getD_take v1 8 (2 * (i / 2)) 0 (by omega), getD_take v1 8 (2 * (i / 2) + 1) 0 (by omega),
      getD_take u2 8 (2 * (i / 2)) 0 (by omega), getD_take u2 8 (2 * (i / 2) + 1) 0 (by omega),
      getD_take v2 8 (2 * (i / 2)) 0 (by omega), getD_take v2 8 (2 * (i / 2) + 1) 0 (by omega)]
    rw [List.getD_eq_getElem _ (0 : ℝ) hi1]
    simp [List.getElem_map, List.getElem_range, toU16_pair]

/-- The 16-bit scalar body processes a leading 8-pixel (16-byte) block
independently of the rest of the row. -/
theorem body16_split (bd : ℕ) (y1a y1b u1a u1b v1a v1b y2a y2b u2a u2b v2a v2b : List ℕ)
    (ra rb : List ℝ)
    (hy1 : y1a.length = 16) (hu1 : u1a.length = 8) (hv1 : v1a.length = 8)
    (hy2 : y2a.length = 16) (hu2 : u2a.length = 8) (hv2 : v2a.length = 8)
    (hra : ra.length = 8) :
    delta_e_row_body16 bd (y1a ++ y1b) (u1a ++ u1b) (v1a ++ v1b) (y2a ++ y2b)
        (u2a ++ u2b) (v2a ++ v2b) (ra ++ rb) =
      delta_e_row_body16 bd y1a u1a v1a y2a u2a v2a ra ++
        delta_e_row_body16 bd y1b u1b v1b y2b u2b v2b rb := by
  have hcy1 : (chunksOf 2 y1a).length = 8 := chunksOf_length_exact 1 8 _ (by omega)
  have hcy2 : (chunksOf 2 y2a).length = 8 := chunksOf_length_exact 1 8 _ (by omega)
  have hcu1 : (chunksOf 2 u1a).length = 4 := chunksOf_length_exact 1 4 _ (by omega)
  have hcv1 : (chunksOf 2 v1a).length = 4 := chunksOf_length_exact 1 4 _ (by omega)
  have hcu2 : (chunksOf 2 u2a).length = 4 := chunksOf_length_exact 1 4 _ (by omega)
  have hcv2 : (chunksOf 2 v2a).length = 4 := chunksOf_length_exact 1 4 _ (by omega)
  have ht1 : (twice (chunksOf 2 u1a)).length = 8 := by rw [twice_length, hcu1]
  have ht2 : (twice (chunksOf 2 v1a)).length = 8 := by rw [twice_length, hcv1]
  have ht3 : (twice (chunksOf 2 u2a)).length = 8 := by rw [twice_length, hcu2]
  have ht4 : (twice (chunksOf 2 v2a)).length = 8 := by rw [twice_length, hcv2]
  simp only [delta_e_row_body16]
  rw [show chunksOf 2 (y1a ++ y1b) = chunksOf 2 y1a ++ chunksOf 2 y1b from
      chunksOf_append 1 8 _ _ (by omega),
    show chunksOf 2 (u1a ++ u1b) = chunksOf 2 u1a ++ chunksOf 2 u1b from
      chunksOf_append 1 4 _ _ (by omega),
    show chunksOf 2 (v1a ++ v1b) = chunksOf 2 v1a ++ chunksOf 2 v1b from
      chunksOf_append 1 4 _ _ (by omega),
    show chunksOf 2 (y2a ++ y2b) = chunksOf 2 y2a ++ chunksOf 2 y2b from
      chunksOf_append 1 8 _ _ (by omega),
    show chunksOf 2 (u2a ++ u2b) = chunksOf 2 u2a ++ chunksOf 2 u2b from
      chunksOf_append 1 4 _ _ (by omega),
    show chunksOf 2 (v2a ++ v2b) = chunksOf 2 v2a ++ chunksOf 2 v2b from
      chunksOf_append 1 4 _ _ (by omega)]
  simp only [twice_append]
  rw [zip7_append _ 8 (chunksOf 2 y1a) (twice (chunksOf 2 u1a)) (twice (chunksOf 2 v1a))
    (chunksOf 2 y2a) (twice (chunksOf 2 u2a)) (twice (chunksOf 2 v2a)) ra
    (chunksOf 2 y1b) (twice (chunksOf 2 u1b)) (twice (chunksOf 2 v1b))
    (chunksOf 2 y2b) (twice (chunksOf 2 u2b)) (twice (chunksOf 2 v2b)) rb
    hcy1 ht1 ht2 hcy2 ht3 ht4 hra]
  have hzh := zip7_length_all (fun a b c d e f (_ : ℝ) =>
      delta_e_scalar bd (toU16 a, toU16 b, toU16 c) (toU16 d, toU16 e, toU16 f)) 8
    (chunksOf 2 y1a) (twice (chunksOf 2 u1a)) (twice (chunksOf 2 v1a))
    (chunksOf 2 y2a) (twice (chunksOf 2 u2a)) (twice (chunksOf 2 v2a)) ra
    hcy1 ht1 ht2 hcy2 ht3 ht4 hra
  rw [List.length_append, hzh]
  rw [show ∀ k : ℕ, (ra ++ rb).drop (8 + k) = rb.drop k from fun k => by
    rw [← hra]; exact List.drop_append k]
  rw [show List.drop 8 ra = [] from by rw [← hra, List.drop_length],
    List.append_nil, List.append_assoc]

/-- C1's core, 16-bit case: on rows shaped as main.rs produces them
(`|y| = 2w` bytes, `|u| = |v| = 2*(w/2)` bytes, `|res| = w`), the AVX2
kernel computes exactly the scalar kernel's output buffer. -/
theorem avx2_row16_eq (bd : ℕ) (w : ℕ) : ∀ (y1 u1 v1 y2 u2 v2 : List ℕ) (res : List ℝ),
    y1.length = 2 * w → u1.length = 2 * (w / 2) → v1.length = 2 * (w / 2) →
    y2.length = 2 * w → u2.length = 2 * (w / 2) → v2.length = 2 * (w / 2) →
    res.length = w →
    delta_e_row_avx2_16 bd y1 u1 v1 y2 u2 v2 res =
      delta_e_row_body16 bd y1 u1 v1 y2 u2 v2 res := by
  induction w using Nat.strong_induction_on with
  | _ w IH =>
  intro y1 u1 v1 y2 u2 v2 res h1 h2 h3 h4 h5 h6 h7
  rcases Nat.lt_or_ge w 2 with hw2 | hw2
  · -- w ≤ 1: the chroma rows are empty, nothing is written.
    have hu : u1 = [] := List.eq_nil_of_length_eq_zero (by omega)
    have hscal : delta_e_row_body16 bd y1 u1 v1 y2 u2 v2 res = res := by
      simp only [delta_e_row_body16, hu, chunksOf_nil, twice_nil, zip7_nil2,
        List.length_nil, List.drop_zero, List.nil_append]
    rcases Nat.eq_zero_or_pos w with hw0 | hwpos
    · have hy : y1 = [] := List.eq_nil_of_length_eq_zero (by omega)
      rw [delta_e_row_avx2_16, dif_pos (Or.inl hy), hscal]
    · rw [delta_e_row_avx2_16, dif_pos (Or.inr (Or.inl hu)), hscal]
  · have hne : ¬(y1 = [] ∨ u1 = [] ∨ v1 = [] ∨ y2 = [] ∨ u2 = [] ∨ v2 = [] ∨ res = []) := by
      intro hc
      rcases hc with hc | hc | hc | hc | hc | hc | hc
      · rw [hc] at h1; simp at h1; omega
      · rw [hc] at h2; simp at h2; omega
      · rw [hc] at h3; simp at h3; omega
      · rw [hc] at h4; simp at h4; omega
      · rw [hc] at h5; simp at h5; omega
      · rw [hc] at h6; simp at h6; omega
      · rw [hc] at h7; simp at h7; omega
    rcases Nat.lt_or_ge w 8 with hw8 | hw8
    · -- 2 ≤ w < 8: one short trailing chunk, handled by the scalar fallback.
      rw [delta_e_row_avx2_16, dif_neg hne, if_pos (by omega : y1.length < 16)]
      rw [List.take_of_length_le (by omega : y1.length ≤ 16),
        List.take_of_length_le (by omega : u1.length ≤ 8),
        List.take_of_length_le (by omega : v1.length ≤ 8),
        List.take_of_length_le (by omega : y2.length ≤ 16),
        List.take_of_length_le (by omega : u2.length ≤ 8),
        List.take_of_length_le (by omega : v2.length ≤ 8),
        List.take_of_length_le (by omega : res.length ≤ 8)]
      rw [List.drop_eq_nil_of_le (by omega : y1.length ≤ 16)]
      rw [delta_e_row_avx2_16, dif_pos (Or.inl rfl)]
      rw [List.drop_eq_nil_of_le (by omega : res.length ≤ 8), List.append_nil]
    · -- w ≥ 8: one full vector chunk, then induction on the rest.
      rw [delta_e_row_avx2_16, dif_neg hne, if_neg (by omega : ¬y1.length < 16)]
      have hrec := IH (w - 8) (by omega) (y1.drop 16) (u1.drop 8) (v1.drop 8)
        (y2.drop 16) (u2.drop 8) (v2.drop 8) (res.drop 8)
        (by simp only [List.length_drop]; omega)
        (by simp only [List.length_drop]; omega)
        (by simp only [List.length_drop]; omega)
        (by simp only [List.length_drop]; omega)
        (by simp only [List.length_drop]; omega)
        (by simp only [List.length_drop]; omega)
        (by simp only [List.length_drop]; omega)
      rw [hrec]
      rw [lanes16_eq bd y1 u1 v1 y2 u2 v2 res (by omega) (by omega) (by omega)
        (by omega) (by omega) (by omega) (by omega)]
      conv_rhs =>
        rw [← List.take_append_drop 16 y1, ← List.take_append_drop 8 u1,
          ← List.take_append_drop 8 v1, ← List.take_append_drop 16 y2,
          ← List.take_append_drop 8 u2, ← List.take_append_drop 8 v2,
          ← List.take_append_drop 8 res]
      rw [body16_split bd _ _ _ _ _ _ _ _ _ _ _ _ _ _
        (by rw [List.length_take]; omega) (by rw [List.length_take]; omega)
        (by rw [List.length_take]; omega) (by rw [List.length_take]; omega)
        (by rw [List.length_take]; omega) (by rw [List.length_take]; omega)
        (by rw [List.length_take]; omega)]

/-- Shared helper: at every supported bit depth, on rows shaped as main.rs
produces them, the AVX2 row kernel and the scalar row kernel produce equal
output buffers. -/
theorem avx2_eq_scalar_row (bd : ℕ) (hbd : bd = 8 ∨ bd = 10 ∨ bd = 12)
    (w : ℕ) (y1 u1 v1 y2 u2 v2 : List ℕ) (res : List ℝ)
    (hy1 : y1.length = w * bytewidthOf bd) (hu1 : u1.length = w / 2 * bytewidthOf bd)
    (hv1 : v1.length = w / 2 * bytewidthOf bd) (hy2 : y2.length = w * bytewidthOf bd)
    (hu2 : u2.length = w / 2 * bytewidthOf bd) (hv2 : v2.length = w / 2 * bytewidthOf bd)
    (hres : res.length = w) :
    delta_e_row_avx2 bd y1 u1 v1 y2 u2 v2 res =
      delta_e_row_scalar bd 1 y1 u1 v1 y2 u2 v2 res := by
  rcases hbd with hbd | hbd | hbd <;> subst hbd <;>
    simp only [bytewidthOf] at hy1 hu1 hv1 hy2 hu2 hv2 <;>
    norm_num at hy1 hu1 hv1 hy2 hu2 hv2 <;>
    simp only [delta_e_row_avx2, delta_e_row_scalar] <;> norm_num
  · exact avx2_row8_eq w y1 u1 v1 y2 u2 v2 res (by omega) (by omega) (by omega)
      (by omega) (by omega) (by omega) hres
  · exact avx2_row16_eq 10 w y1 u1 v1 y2 u2 v2 res (by omega) (by omega) (by omega)
      (by omega) (by omega) (by omega) hres
  · exact avx2_row16_eq 12 w y1 u1 v1 y2 u2 v2 res (by omega) (by omega) (by omega)
      (by omega) (by omega) (by omega) hres

end RowEquivalence

/-! ## C1: vectorized and scalar kernels agree within 1e-4 -/

/-- C1: for every supported bit depth with a vectorized kernel (8, 10, 12;
the AVX2 kernels exist for the horizontally decimated 4:2:0/4:2:2 layouts),
for every pair of input rows shaped as main.rs slices them, and for every
pixel position, the distances written by the AVX2 kernel and by the scalar
kernel differ by at most 1e-4 (they are in fact equal in the real-number
model, which idealizes float rounding). -/
theorem claim_C1_scalar_avx2_agree (bd : ℕ) (hbd : bd = 8 ∨ bd = 10 ∨ bd = 12)
    (w : ℕ) (y1 u1 v1 y2 u2 v2 : List ℕ) (res : List ℝ)
    (hy1 : y1.length = w * bytewidthOf bd) (hu1 : u1.length = w / 2 * bytewidthOf bd)
    (hv1 : v1.length = w / 2 * bytewidthOf bd) (hy2 : y2.length = w * bytewidthOf bd)
    (hu2 : u2.length = w / 2 * bytewidthOf bd) (hv2 : v2.length = w / 2 * bytewidthOf bd)
    (hres : res.length = w) :
    ∀ i : ℕ,
      |(delta_e_row_avx2 bd y1 u1 v1 y2 u2 v2 res).getD i 0 -
        (delta_e_row_scalar bd 1 y1 u1 v1 y2 u2 v2 res).getD i 0| ≤ 1 / 10000 := by
  intro i
  rw [avx2_eq_scalar_row bd hbd w y1 u1 v1 y2 u2 v2 res hy1 hu1 hv1 hy2 hu2 hv2 hres]
  rw [sub_self, abs_zero]
  norm_num

/-- Witness for C1: a concrete two-pixel 8-bit row. -/
theorem claim_C1_witness :
    ((8 : ℕ) = 8 ∨ (8 : ℕ) = 10 ∨ (8 : ℕ) = 12) ∧
    ∀ i : ℕ,
      |(delta_e_row_avx2 8 [16, 235] [128] [128] [17, 234] [129] [127]
          [(0 : ℝ), 0]).getD i 0 -
        (delta_e_row_scalar 8 1 [16, 235] [128] [128] [17, 234] [129] [127]
          [(0 : ℝ), 0]).getD i 0| ≤ 1 / 10000 :=
  ⟨Or.inl rfl,
    claim_C1_scalar_avx2_agree 8 (Or.inl rfl) 2 [16, 235] [128] [128] [17, 234] [129] [127]
      [(0 : ℝ), 0] (by decide) (by decide) (by decide) (by decide) (by decide) (by decide)
      (by simp)⟩

/-! ## C9 (amended): the dispatch table -/

/-- C9 (amended): for every supported dispatch key, the dispatcher returns
the 8-wide AVX2 kernel exactly when the processor supports AVX2, SIMD is
not opted out, and the chroma layout is horizontally decimated
(`xdec = 1`, i.e. 4:2:0 or 4:2:2); for 4:4:4 it always returns the scalar
kernel.  The selection is made once per run: every row of every frame of
the whole run is processed with that one function.  Where the AVX2 kernel
is selected it is equivalent to the key's scalar kernel. -/
theorem claim_C9_dispatch (bd : ℕ) (hbd : bd = 8 ∨ bd = 10 ∨ bd = 12)
    (xdec : ℕ) (hx : xdec = 0 ∨ xdec = 1) (simd avx2sup : Bool) :
    get_delta_e_row_fn bd xdec simd avx2sup =
      some (if avx2sup ∧ simd ∧ xdec = 1 then RowKernel.avx2 bd
        else RowKernel.scalar bd xdec) ∧
    (∀ (ydec w h : ℕ) frames, process_video bd xdec ydec simd avx2sup w h frames =
      some (frames.map (fun fr =>
        process_frame bd xdec ydec
          (if avx2sup ∧ simd ∧ xdec = 1 then RowKernel.avx2 bd
            else RowKernel.scalar bd xdec) w h
          fr.1.1 fr.1.2.1 fr.1.2.2 fr.2.1 fr.2.2.1 fr.2.2.2))) ∧
    (∀ (w : ℕ) (y1 u1 v1 y2 u2 v2 : List ℕ) (res : List ℝ),
      y1.length = w * bytewidthOf bd → u1.length = w / 2 * bytewidthOf bd →
      v1.length = w / 2 * bytewidthOf bd → y2.length = w * bytewidthOf bd →
      u2.length = w / 2 * bytewidthOf bd → v2.length = w / 2 * bytewidthOf bd →
      res.length = w →
      runRowKernel (RowKernel.avx2 bd) y1 u1 v1 y2 u2 v2 res =
        runRowKernel (RowKernel.scalar bd 1) y1 u1 v1 y2 u2 v2 res) := by
  have hdisp : get_delta_e_row_fn bd xdec simd avx2sup =
      some (if avx2sup ∧ simd ∧ xdec = 1 then RowKernel.avx2 bd
        else RowKernel.scalar bd xdec) := by
    rcases hbd with hbd | hbd | hbd <;> subst hbd <;>
      rcases hx with hx | hx <;> subst hx <;>
      cases simd <;> cases avx2sup <;> decide
  refine ⟨hdisp, ?_, ?_⟩
  · intro ydec w h frames
    unfold process_video
    rw [hdisp]
  · intro w y1 u1 v1 y2 u2 v2 res hy1 hu1 hv1 hy2 hu2 hv2 hres
    simp only [runRowKernel]
    exact avx2_eq_scalar_row bd hbd w y1 u1 v1 y2 u2 v2 res hy1 hu1 hv1 hy2 hu2 hv2 hres

/-- Witness for C9 at the key (8, 4:2:0) with AVX2 and SIMD on. -/
theorem claim_C9_witness :
    ((8 : ℕ) = 8 ∨ (8 : ℕ) = 10 ∨ (8 : ℕ) = 12) ∧ ((1 : ℕ) = 0 ∨ (1 : ℕ) = 1) ∧
    get_delta_e_row_fn 8 1 true true = some (RowKernel.avx2 8) :=
  ⟨Or.inl rfl, Or.inr rfl, by
    have := (claim_C9_dispatch 8 (Or.inl rfl) 1 (Or.inr rfl) true true).1
    simpa using this⟩

/-! ## C4: 4:2:0 chroma replication -/

theorem body8_out_length (y1 u1 v1 y2 u2 v2 : List ℕ) (res : List ℝ) :
    (delta_e_row_body8 y1 u1 v1 y2 u2 v2 res).length = res.length := by
  simp only [delta_e_row_body8]
  rw [List.length_append, List.length_drop]
  have := zip7_length_le_last
    (fun a b c d e f (_ : ℝ) => delta_e_scalar 8 (a, b, c) (d, e, f))
    res y1 (twice u1) (twice v1) y2 (twice u2) (twice v2)
  omega

/-- The pixel written by the 8-bit decimated scalar body at column `c`. -/
theorem body8_getD (y1 u1 v1 y2 u2 v2 : List ℕ) (res : List ℝ) (c : ℕ)
    (hcy1 : c < y1.length) (hcu1 : c < 2 * u1.length) (hcv1 : c < 2 * v1.length)
    (hcy2 : c < y2.length) (hcu2 : c < 2 * u2.length) (hcv2 : c < 2 * v2.length)
    (hcr : c < res.length) :
    (delta_e_row_body8 y1 u1 v1 y2 u2 v2 res).getD c 0 =
      delta_e_scalar 8 (y1.getD c 0, u1.getD (c / 2) 0, v1.getD (c / 2) 0)
        (y2.getD c 0, u2.getD (c / 2) 0, v2.getD (c / 2) 0) := by
  simp only [delta_e_row_body8]
  have hlt : c < (zip7 (fun a b c d e f (_ : ℝ) => delta_e_scalar 8 (a, b, c) (d, e, f))
      y1 (twice u1) (twice v1) y2 (twice u2) (twice v2) res).length :=
    zip7_lt_length _ c y1 (twice u1) (twice v1) y2 (twice u2) (twice v2) res
      hcy1 (by rw [twice_length]; omega) (by rw [twice_length]; omega) hcy2
      (by rw [twice_length]; omega) (by rw [twice_length]; omega) hcr
  rw [getD_append_left _ _ _ _ hlt]
  rw [zip7_getD _ 0 0 0 0 0 0 0 0 c y1 (twice u1) (twice v1) y2 (twice u2) (twice v2) res
    hcy1 (by rw [twice_length]; omega) (by rw [twice_length]; omega) hcy2
    (by rw [twice_length]; omega) (by rw [twice_length]; omega) hcr]
  rw [twice_getD u1 c 0 (by omega), twice_getD v1 c 0 (by omega),
    twice_getD u2 c 0 (by omega), twice_getD v2 c 0 (by omega)]

theorem body16_out_length (bd : ℕ) (y1 u1 v1 y2 u2 v2 : List ℕ) (res : List ℝ) :
    (delta_e_row_body16 bd y1 u1 v1 y2 u2 v2 res).length = res.length := by
  simp only [delta_e_row_body16]
  rw [List.length_append, List.length_drop]
  have := zip7_length_le_last
    (fun a b c d e f (_ : ℝ) =>
      delta_e_scalar bd (toU16 a, toU16 b, toU16 c) (toU16 d, toU16 e, toU16 f))
    res (chunksOf 2 y1) (twice (chunksOf 2 u1)) (twice (chunksOf 2 v1))
    (chunksOf 2 y2) (twice (chunksOf 2 u2)) (twice (chunksOf 2 v2))
  omega

/-- The pixel written by the 16-bit decimated scalar body at column `c`:
the little-endian sample decoded from bytes `2c, 2c+1` of the luma row and
bytes `2(c/2), 2(c/2)+1` of each chroma row. -/
theorem body16_getD (bd : ℕ) (y1 u1 v1 y2 u2 v2 : List ℕ) (res : List ℝ) (c : ℕ)
    (hcy1 : c < (chunksOf 2 y1).length) (hcu1 : c < 2 * (chunksOf 2 u1).length)
    (hcv1 : c < 2 * (chunksOf 2 v1).length)
    (hcy2 : c < (chunksOf 2 y2).length) (hcu2 : c < 2 * (chunksOf 2 u2).length)
    (hcv2 : c < 2 * (chunksOf 2 v2).length) (hcr : c < res.length)
    (hby1 : 2 * c + 1 < y1.length) (hbu1 : 2 * (c / 2) + 1 < u1.length)
    (hbv1 : 2 * (c / 2) + 1 < v1.length) (hby2 : 2 * c + 1 < y2.length)
    (hbu2 : 2 * (c / 2) + 1 < u2.length) (hbv2 : 2 * (c / 2) + 1 < v2.length) :
    (delta_e_row_body16 bd y1 u1 v1 y2 u2 v2 res).getD c 0 =
      delta_e_scalar bd
        (y1.getD (2 * c) 0 + 256 * y1.getD (2 * c + 1) 0,
         u1.getD (2 * (c / 2)) 0 + 256 * u1.getD (2 * (c / 2) + 1) 0,
         v1.getD (2 * (c / 2)) 0 + 256 * v1.getD (2 * (c / 2) + 1) 0)
        (y2.getD (2 * c) 0 + 256 * y2.getD (2 * c + 1) 0,
         u2.getD (2 * (c / 2)) 0 + 256 * u2.getD (2 * (c / 2) + 1) 0,
         v2.getD (2 * (c / 2)) 0 + 256 * v2.getD (2 * (c / 2) + 1) 0) := by
  simp only [delta_e_row_body16]
  have hlt : c < (zip7 (fun a b c d e f (_ : ℝ) =>
      delta_e_scalar bd (toU16 a, toU16 b, toU16 c) (toU16 d, toU16 e, toU16 f))
      (chunksOf 2 y1) (twice (chunksOf 2 u1)) (twice (chunksOf 2 v1))
      (chunksOf 2 y2) (twice (chunksOf 2 u2)) (twice (chunksOf 2 v2)) res).length :=
    zip7_lt_length _ c (chunksOf 2 y1) (twice (chunksOf 2 u1)) (twice (chunksOf 2 v1))
      (chunksOf 2 y2) (twice (chunksOf 2 u2)) (twice (chunksOf 2 v2)) res
      hcy1 (by rw [twice_length]; omega) (by rw [twice_length]; omega) hcy2
      (by rw [twice_length]; omega) (by rw [twice_length]; omega) hcr
  rw [getD_append_left _ _ _ _ hlt]
  rw [zip7_getD _ [] [] [] [] [] [] 0 0 c (chunksOf 2 y1) (twice (chunksOf 2 u1))
    (twice (chunksOf 2 v1)) (chunksOf 2 y2) (twice (chunksOf 2 u2))
    (twice (chunksOf 2 v2)) res
    hcy1 (by rw [twice_length]; omega) (by rw [twice_length]; omega) hcy2
    (by rw [twice_length]; omega) (by rw [twice_length]; omega) hcr]
  rw [twice_getD (chunksOf 2 u1) c [] (by omega), twice_getD (chunksOf 2 v1) c [] (by omega),
    twice_getD (chunksOf 2 u2) c [] (by omega), twice_getD (chunksOf 2 v2) c [] (by omega)]
  rw [chunksOf2_getD c y1 hby1, chunksOf2_getD c y2 hby2,
    chunksOf2_getD (c / 2) u1 hbu1, chunksOf2_getD (c / 2) v1 hbv1,
    chunksOf2_getD (c / 2) u2 hbu2, chunksOf2_getD (c / 2) v2 hbv2]
  rw [toU16_pair, toU16_pair, toU16_pair, toU16_pair, toU16_pair, toU16_pair]

/-- The 8-bit 4:2:0 frame model reads, at luma position `(2i+dr, 2j+dc)`,
exactly the chroma samples at chroma row `i`, column `j`. -/
theorem frame8_chroma_getD (w h i j dr dc : ℕ)
    (y1 u1 v1 y2 u2 v2 : List ℕ)
    (hi : i < h / 2) (hj : j < w / 2) (hdr : dr ≤ 1) (hdc : dc ≤ 1)
    (hy1 : h * w ≤ y1.length) (hy2 : h * w ≤ y2.length)
    (hu1 : h / 2 * (w / 2) ≤ u1.length) (hv1 : h / 2 * (w / 2) ≤ v1.length)
    (hu2 : h / 2 * (w / 2) ≤ u2.length) (hv2 : h / 2 * (w / 2) ≤ v2.length) :
    (process_frame 8 1 1 (RowKernel.scalar 8 1) w h y1 u1 v1 y2 u2 v2).getD
        ((2 * i + dr) * w + (2 * j + dc)) 0 =
      delta_e_scalar 8
        (y1.getD ((2 * i + dr) * w + (2 * j + dc)) 0,
         u1.getD (i * (w / 2) + j) 0, v1.getD (i * (w / 2) + j) 0)
        (y2.getD ((2 * i + dr) * w + (2 * j + dc)) 0,
         u2.getD (i * (w / 2) + j) 0, v2.getD (i * (w / 2) + j) 0) := by
  have hrh : 2 * i + dr < h := by omega
  have hcw : 2 * j + dc < w := by omega
  have hslice : ∀ (l : List ℕ) (rr : ℕ), rr < h → h * w ≤ l.length →
      (sliceOf l (rr * w) w).length = w := by
    intro l rr hr hl
    rw [sliceOf, List.length_take, List.length_drop]
    have : (rr + 1) * w ≤ h * w := Nat.mul_le_mul_right w (by omega)
    have : (rr + 1) * w ≤ l.length := le_trans this hl
    rw [Nat.add_mul] at this
    omega
  have hcslice : ∀ (l : List ℕ) (rr : ℕ), rr < h / 2 → h / 2 * (w / 2) ≤ l.length →
      (sliceOf l (rr * (w / 2)) (w / 2)).length = w / 2 := by
    intro l rr hr hl
    rw [sliceOf, List.length_take, List.length_drop]
    have : (rr + 1) * (w / 2) ≤ h / 2 * (w / 2) := Nat.mul_le_mul_right (w / 2) (by omega)
    have : (rr + 1) * (w / 2) ≤ l.length := le_trans this hl
    rw [Nat.add_mul] at this
    omega
  simp only [process_frame, bytewidthOf, runRowKernel, delta_e_row_scalar,
    Nat.shiftRight_eq_div_pow, pow_one, reduceIte, Nat.mul_one]
  rw [flatten_getD w 0 _ (2 * i + dr) (2 * j + dc) ?hall (by simpa using hrh) hcw]
  case hall =>
    intro l hl
    rw [List.mem_map] at hl
    obtain ⟨rr, hrr, rfl⟩ := hl
    rw [List.mem_range] at hrr
    rw [body8_out_length, List.length_replicate]
  have hmap : ((List.range h).map (fun rr =>
      delta_e_row_body8 (sliceOf y1 (rr * w) w)
        (sliceOf u1 (rr / 2 * (w / 2)) (w / 2)) (sliceOf v1 (rr / 2 * (w / 2)) (w / 2))
        (sliceOf y2 (rr * w) w)
        (sliceOf u2 (rr / 2 * (w / 2)) (w / 2)) (sliceOf v2 (rr / 2 * (w / 2)) (w / 2))
        (List.replicate w 0))).getD (2 * i + dr) [] =
      delta_e_row_body8 (sliceOf y1 ((2 * i + dr) * w) w)
        (sliceOf u1 ((2 * i + dr) / 2 * (w / 2)) (w / 2))
        (sliceOf v1 ((2 * i + dr) / 2 * (w / 2)) (w / 2))
        (sliceOf y2 ((2 * i + dr) * w) w)
        (sliceOf u2 ((2 * i + dr) / 2 * (w / 2)) (w / 2))
        (sliceOf v2 ((2 * i + dr) / 2 * (w / 2)) (w / 2))
        (List.replicate w 0) := by
    rw [List.getD_eq_getElem _ _ (by simpa using hrh)]
    simp
  rw [hmap]
  have hdiv : (2 * i + dr) / 2 = i := by omega
  have hdivc : (2 * j + dc) / 2 = j := by omega
  rw [hdiv]
  rw [body8_getD _ _ _ _ _ _ _ (2 * j + dc)
    (by rw [hslice y1 _ hrh hy1]; exact hcw)
    (by rw [hcslice u1 i hi hu1]; omega)
    (by rw [hcslice v1 i hi hv1]; omega)
    (by rw [hslice y2 _ hrh hy2]; exact hcw)
    (by rw [hcslice u2 i hi hu2]; omega)
    (by rw [hcslice v2 i hi hv2]; omega)
    (by rw [List.length_replicate]; exact hcw)]
  rw [hdivc]
  rw [sliceOf_getD y1 _ _ _ _ hcw, sliceOf_getD y2 _ _ _ _ hcw,
    sliceOf_getD u1 _ _ _ _ hj, sliceOf_getD v1 _ _ _ _ hj,
    sliceOf_getD u2 _ _ _ _ hj, sliceOf_getD v2 _ _ _ _ hj]

/-- The 10/12-bit 4:2:0 frame model (two bytes per sample) reads, at luma
position `(2i+dr, 2j+dc)`, exactly the byte pair of the chroma sample at
chroma row `i`, column `j`. -/
theorem frame16_chroma_getD (bd w h i j dr dc : ℕ) (hbd8 : ¬ bd = 8)
    (y1 u1 v1 y2 u2 v2 : List ℕ)
    (hi : i < h / 2) (hj : j < w / 2) (hdr : dr ≤ 1) (hdc : dc ≤ 1)
    (hy1 : h * w * 2 ≤ y1.length) (hy2 : h * w * 2 ≤ y2.length)
    (hu1 : h / 2 * (w / 2) * 2 ≤ u1.length) (hv1 : h / 2 * (w / 2) * 2 ≤ v1.length)
    (hu2 : h / 2 * (w / 2) * 2 ≤ u2.length) (hv2 : h / 2 * (w / 2) * 2 ≤ v2.length) :
    (process_frame bd 1 1 (RowKernel.scalar bd 1) w h y1 u1 v1 y2 u2 v2).getD
        ((2 * i + dr) * w + (2 * j + dc)) 0 =
      delta_e_scalar bd
        (y1.getD (2 * ((2 * i + dr) * w + (2 * j + dc))) 0 +
           256 * y1.getD (2 * ((2 * i + dr) * w + (2 * j + dc)) + 1) 0,
         u1.getD (2 * (i * (w / 2) + j)) 0 + 256 * u1.getD (2 * (i * (w / 2) + j) + 1) 0,
         v1.getD (2 * (i * (w / 2) + j)) 0 + 256 * v1.getD (2 * (i * (w / 2) + j) + 1) 0)
        (y2.getD (2 * ((2 * i + dr) * w + (2 * j + dc))) 0 +
           256 * y2.getD (2 * ((2 * i + dr) * w + (2 * j + dc)) + 1) 0,
         u2.getD (2 * (i * (w / 2) + j)) 0 + 256 * u2.getD (2 * (i * (w / 2) + j) + 1) 0,
         v2.getD (2 * (i * (w / 2) + j)) 0 + 256 * v2.getD (2 * (i * (w / 2) + j) + 1) 0) := by
  have hrh : 2 * i + dr < h := by omega
  have hcw : 2 * j + dc < w := by omega
  have hslice : ∀ (l : List ℕ) (rr : ℕ), rr < h → h * w * 2 ≤ l.length →
      (sliceOf l (rr * (w * 2)) (w * 2)).length = w * 2 := by
    intro l rr hr hl
    rw [sliceOf, List.length_take, List.length_drop]
    have h2 : (rr + 1) * (w * 2) ≤ l.length := by
      calc (rr + 1) * (w * 2) ≤ h * (w * 2) := Nat.mul_le_mul_right (w * 2) (by omega)
        _ = h * w * 2 := (Nat.mul_assoc h w 2).symm
        _ ≤ l.length := hl
    rw [Nat.add_mul] at h2
    omega
  have hcslice : ∀ (l : List ℕ) (rr : ℕ), rr < h / 2 → h / 2 * (w / 2) * 2 ≤ l.length →
      (sliceOf l (rr * (w / 2 * 2)) (w / 2 * 2)).length = w / 2 * 2 := by
    intro l rr hr hl
    rw [sliceOf, List.length_take, List.length_drop]
    have h2 : (rr + 1) * (w / 2 * 2) ≤ l.length := by
      calc (rr + 1) * (w / 2 * 2) ≤ h / 2 * (w / 2 * 2) :=
            Nat.mul_le_mul_right (w / 2 * 2) (by omega)
        _ = h / 2 * (w / 2) * 2 := (Nat.mul_assoc (h / 2) (w / 2) 2).symm
        _ ≤ l.length := hl
    rw [Nat.add_mul] at h2
    omega
  simp only [process_frame, bytewidthOf, runRowKernel, delta_e_row_scalar,
    if_neg hbd8, Nat.shiftRight_eq_div_pow, pow_one, reduceIte]
  rw [flatten_getD w 0 _ (2 * i + dr) (2 * j + dc) ?hall (by simpa using hrh) hcw]
  case hall =>
    intro l hl
    rw [List.mem_map] at hl
    obtain ⟨rr, hrr, rfl⟩ := hl
    rw [List.mem_range] at hrr
    rw [body16_out_length, List.length_replicate]
  have hmap : ((List.range h).map (fun rr =>
      delta_e_row_body16 bd (sliceOf y1 (rr * (w * 2)) (w * 2))
        (sliceOf u1 (rr / 2 * (w / 2 * 2)) (w / 2 * 2))
        (sliceOf v1 (rr / 2 * (w / 2 * 2)) (w / 2 * 2))
        (sliceOf y2 (rr * (w * 2)) (w * 2))
        (sliceOf u2 (rr / 2 * (w / 2 * 2)) (w / 2 * 2))
        (sliceOf v2 (rr / 2 * (w / 2 * 2)) (w / 2 * 2))
        (List.replicate w 0))).getD (2 * i + dr) [] =
      delta_e_row_body16 bd (sliceOf y1 ((2 * i + dr) * (w * 2)) (w * 2))
        (sliceOf u1 ((2 * i + dr) / 2 * (w / 2 * 2)) (w / 2 * 2))
        (sliceOf v1 ((2 * i + dr) / 2 * (w / 2 * 2)) (w / 2 * 2))
        (sliceOf y2 ((2 * i + dr) * (w * 2)) (w * 2))
        (sliceOf u2 ((2 * i + dr) / 2 * (w / 2 * 2)) (w / 2 * 2))
        (sliceOf v2 ((2 * i + dr) / 2 * (w / 2 * 2)) (w / 2 * 2))
        (List.replicate w 0) := by
    rw [List.getD_eq_getElem _ _ (by simpa using hrh)]
    simp
  rw [hmap]
  have hdiv : (2 * i + dr) / 2 = i := by omega
  have hdivc : (2 * j + dc) / 2 = j := by omega
  rw [hdiv]
  have hchy1 : (chunksOf 2 (sliceOf y1 ((2 * i + dr) * (w * 2)) (w * 2))).length = w :=
    chunksOf_length_exact 1 w _ (by rw [hslice y1 _ hrh hy1]; omega)
  have hchy2 : (chunksOf 2 (sliceOf y2 ((2 * i + dr) * (w * 2)) (w * 2))).length = w :=
    chunksOf_length_exact 1 w _ (by rw [hslice y2 _ hrh hy2]; omega)
  have hchu1 : (chunksOf 2 (sliceOf u1 (i * (w / 2 * 2)) (w / 2 * 2))).length = w / 2 :=
    chunksOf_length_exact 1 (w / 2) _ (by rw [hcslice u1 i hi hu1]; omega)
  have hchv1 : (chunksOf 2 (sliceOf v1 (i * (w / 2 * 2)) (w / 2 * 2))).length = w / 2 :=
    chunksOf_length_exact 1 (w / 2) _ (by rw [hcslice v1 i hi hv1]; omega)
  have hchu2 : (chunksOf 2 (sliceOf u2 (i * (w / 2 * 2)) (w / 2 * 2))).length = w / 2 :=
    chunksOf_length_exact 1 (w / 2) _ (by rw [hcslice u2 i hi hu2]; omega)
  have hchv2 : (chunksOf 2 (sliceOf v2 (i * (w / 2 * 2)) (w / 2 * 2))).length = w / 2 :=
    chunksOf_length_exact 1 (w / 2) _ (by rw [hcslice v2 i hi hv2]; omega)
  rw [body16_getD bd _ _ _ _ _ _ _ (2 * j + dc)
    (by rw [hchy1]; exact hcw) (by rw [hchu1]; omega) (by rw [hchv1]; omega)
    (by rw [hchy2]; exact hcw) (by rw [hchu2]; omega) (by rw [hchv2]; omega)
    (by rw [List.length_replicate]; exact hcw)
    (by rw [hslice y1 _ hrh hy1]; omega)
    (by rw [hcslice u1 i hi hu1]; omega)
    (by rw [hcslice v1 i hi hv1]; omega)
    (by rw [hslice y2 _ hrh hy2]; omega)
    (by rw [hcslice u2 i hi hu2]; omega)
    (by rw [hcslice v2 i hi hv2]; omega)]
  rw [hdivc]
  rw [sliceOf_getD y1 _ _ _ _ (by omega), sliceOf_getD y1 _ _ _ _ (by omega),
    sliceOf_getD y2 _ _ _ _ (by omega), sliceOf_getD y2 _ _ _ _ (by omega),
    sliceOf_getD u1 _ _ _ _ (by omega), sliceOf_getD u1 _ _ _ _ (by omega),
    sliceOf_getD v1 _ _ _ _ (by omega), sliceOf_getD v1 _ _ _ _ (by omega),
    sliceOf_getD u2 _ _ _ _ (by omega), sliceOf_getD u2 _ _ _ _ (by omega),
    sliceOf_getD v2 _ _ _ _ (by omega), sliceOf_getD v2 _ _ _ _ (by omega)]
  rw [show (2 * i + dr) * (w * 2) + 2 * (2 * j + dc) =
        2 * ((2 * i + dr) * w + (2 * j + dc)) from by ring,
    show (2 * i + dr) * (w * 2) + (2 * (2 * j + dc) + 1) =
        2 * ((2 * i + dr) * w + (2 * j + dc)) + 1 from by ring,
    show i * (w / 2 * 2) + 2 * j = 2 * (i * (w / 2) + j) from by ring,
    show i * (w / 2 * 2) + (2 * j + 1) = 2 * (i * (w / 2) + j) + 1 from by ring]

/-- C4: in a 4:2:0 frame at any of the supported bit depths (8, 10, 12),
the distance at each of the four luma positions `(2i+dr, 2j+dc)`
(`dr, dc ∈ {0,1}`) is computed from the luma sample at that position
together with exactly the chroma sample stored at chroma row `i`, column
`j` — via `twice` duplication and the `i >> 1` row shift at 8 bits, and via
the `chunks(2)`/`to_u16`/`twice` byte path at 10/12 bits.  The chroma is
replicated, never interpolated. -/
theorem claim_C4_chroma_replication (bd w h i j dr dc : ℕ)
    (hbd : bd = 8 ∨ bd = 10 ∨ bd = 12)
    (y1 u1 v1 y2 u2 v2 : List ℕ)
    (hi : i < h / 2) (hj : j < w / 2) (hdr : dr ≤ 1) (hdc : dc ≤ 1)
    (hy1 : h * w * bytewidthOf bd ≤ y1.length)
    (hy2 : h * w * bytewidthOf bd ≤ y2.length)
    (hu1 : h / 2 * (w / 2) * bytewidthOf bd ≤ u1.length)
    (hv1 : h / 2 * (w / 2) * bytewidthOf bd ≤ v1.length)
    (hu2 : h / 2 * (w / 2) * bytewidthOf bd ≤ u2.length)
    (hv2 : h / 2 * (w / 2) * bytewidthOf bd ≤ v2.length) :
    (process_frame bd 1 1 (RowKernel.scalar bd 1) w h y1 u1 v1 y2 u2 v2).getD
        ((2 * i + dr) * w + (2 * j + dc)) 0 =
      if bd = 8 then
        delta_e_scalar 8
          (y1.getD ((2 * i + dr) * w + (2 * j + dc)) 0,
           u1.getD (i * (w / 2) + j) 0, v1.getD (i * (w / 2) + j) 0)
          (y2.getD ((2 * i + dr) * w + (2 * j + dc)) 0,
           u2.getD (i * (w / 2) + j) 0, v2.getD (i * (w / 2) + j) 0)
      else
        delta_e_scalar bd
          (y1.getD (2 * ((2 * i + dr) * w + (2 * j + dc))) 0 +
             256 * y1.getD (2 * ((2 * i + dr) * w + (2 * j + dc)) + 1) 0,
           u1.getD (2 * (i * (w / 2) + j)) 0 + 256 * u1.getD (2 * (i * (w / 2) + j) + 1) 0,
           v1.getD (2 * (i * (w / 2) + j)) 0 + 256 * v1.getD (2 * (i * (w / 2) + j) + 1) 0)
          (y2.getD (2 * ((2 * i + dr) * w + (2 * j + dc))) 0 +
             256 * y2.getD (2 * ((2 * i + dr) * w + (2 * j + dc)) + 1) 0,
           u2.getD (2 * (i * (w / 2) + j)) 0 + 256 * u2.getD (2 * (i * (w / 2) + j) + 1) 0,
           v2.getD (2 * (i * (w / 2) + j)) 0 + 256 * v2.getD (2 * (i * (w / 2) + j) + 1) 0) := by
  rcases hbd with hb | hb | hb
  · subst hb
    rw [if_pos rfl]
    simp only [bytewidthOf, reduceIte, Nat.mul_one] at hy1 hy2 hu1 hv1 hu2 hv2
    exact frame8_chroma_getD w h i j dr dc y1 u1 v1 y2 u2 v2 hi hj hdr hdc
      hy1 hy2 hu1 hv1 hu2 hv2
  · subst hb
    rw [if_neg (by norm_num)]
    simp only [bytewidthOf, reduceIte] at hy1 hy2 hu1 hv1 hu2 hv2
    exact frame16_chroma_getD 10 w h i j dr dc (by norm_num) y1 u1 v1 y2 u2 v2
      hi hj hdr hdc hy1 hy2 hu1 hv1 hu2 hv2
  · subst hb
    rw [if_neg (by norm_num)]
    simp only [bytewidthOf, reduceIte] at hy1 hy2 hu1 hv1 hu2 hv2
    exact frame16_chroma_getD 12 w h i j dr dc (by norm_num) y1 u1 v1 y2 u2 v2
      hi hj hdr hdc hy1 hy2 hu1 hv1 hu2 hv2

/-- Witness for C4: a 2x2 10-bit frame with concrete byte values, exercising
the `chunks(2)`/`to_u16` replication path. -/
theorem claim_C4_witness :
    ((10:ℕ) = 8 ∨ (10:ℕ) = 10 ∨ (10:ℕ) = 12) ∧
    (process_frame 10 1 1 (RowKernel.scalar 10 1) 2 2
        [1, 2, 3, 4, 5, 6, 7, 8] [9, 1] [2, 3]
        [4, 5, 6, 7, 8, 9, 1, 2] [3, 4] [5, 6]).getD
        ((2 * 0 + 1) * 2 + (2 * 0 + 1)) 0 =
      (if (10:ℕ) = 8 then
        delta_e_scalar 8
          (([1, 2, 3, 4, 5, 6, 7, 8] : List ℕ).getD ((2 * 0 + 1) * 2 + (2 * 0 + 1)) 0,
           ([9, 1] : List ℕ).getD (0 * (2 / 2) + 0) 0,
           ([2, 3] : List ℕ).getD (0 * (2 / 2) + 0) 0)
          (([4, 5, 6, 7, 8, 9, 1, 2] : List ℕ).getD ((2 * 0 + 1) * 2 + (2 * 0 + 1)) 0,
           ([3, 4] : List ℕ).getD (0 * (2 / 2) + 0) 0,
           ([5, 6] : List ℕ).getD (0 * (2 / 2) + 0) 0)
      else
        delta_e_scalar 10
          (([1, 2, 3, 4, 5, 6, 7, 8] : List ℕ).getD
              (2 * ((2 * 0 + 1) * 2 + (2 * 0 + 1))) 0 +
             256 * ([1, 2, 3, 4, 5, 6, 7, 8] : List ℕ).getD
              (2 * ((2 * 0 + 1) * 2 + (2 * 0 + 1)) + 1) 0,
           ([9, 1] : List ℕ).getD (2 * (0 * (2 / 2) + 0)) 0 +
             256 * ([9, 1] : List ℕ).getD (2 * (0 * (2 / 2) + 0) + 1) 0,
           ([2, 3] : List ℕ).getD (2 * (0 * (2 / 2) + 0)) 0 +
             256 * ([2, 3] : List ℕ).getD (2 * (0 * (2 / 2) + 0) + 1) 0)
          (([4, 5, 6, 7, 8, 9, 1, 2] : List ℕ).getD
              (2 * ((2 * 0 + 1) * 2 + (2 * 0 + 1))) 0 +
             256 * ([4, 5, 6, 7, 8, 9, 1, 2] : List ℕ).getD
              (2 * ((2 * 0 + 1) * 2 + (2 * 0 + 1)) + 1) 0,
           ([3, 4] : List ℕ).getD (2 * (0 * (2 / 2) + 0)) 0 +
             256 * ([3, 4] : List ℕ).getD (2 * (0 * (2 / 2) + 0) + 1) 0,
           ([5, 6] : List ℕ).getD (2 * (0 * (2 / 2) + 0)) 0 +
             256 * ([5, 6] : List ℕ).getD (2 * (0 * (2 / 2) + 0) + 1) 0)) :=
  ⟨Or.inr (Or.inl rfl),
    claim_C4_chroma_replication 10 2 2 0 0 1 1 (Or.inr (Or.inl rfl))
      [1, 2, 3, 4, 5, 6, 7, 8] [9, 1] [2, 3] [4, 5, 6, 7, 8, 9, 1, 2] [3, 4] [5, 6]
      (by decide) (by decide) (by decide) (by decide) (by decide) (by decide)
      (by decide) (by decide) (by decide) (by decide)⟩

/-! ## C6: identical frames -/

theorem DE2000_self (lab : Lab) (k : KSubArgs) : DE2000 lab lab k = 0 := by
  simp only [DE2000, sub_self]
  rw [show hueDiffAdjust 0 = 0 from by norm_num [hueDiffAdjust]]
  simp [sinDeg]

theorem replicate_getD_zero (n k : ℕ) : (List.replicate n (0 : ℝ)).getD k 0 = 0 := by
  rcases Nat.lt_or_ge k n with hk | hk
  · rw [List.getD_eq_getElem _ _ (by simpa using hk)]
    exact List.getElem_replicate 0 _
  · exact List.getD_eq_default _ _ (by simpa using hk)

theorem zip7_diag_getD_zero :
    ∀ (as : List ℕ) (bs cs : List ℕ) (hs : List ℝ) (k : ℕ),
      (zip7 (fun a b c d e f (_ : ℝ) => delta_e_scalar 8 (a, b, c) (d, e, f))
        as bs cs as bs cs hs).getD k 0 = 0 := by
  intro as
  induction as with
  | nil => intro bs cs hs k; rw [zip7_nil1]; rfl
  | cons a as ih =>
    intro bs cs hs k
    rcases bs with _ | ⟨b, bs⟩; · rw [zip7_nil2]; rfl
    rcases cs with _ | ⟨c, cs⟩; · rfl
    rcases hs with _ | ⟨h, hs⟩; · rw [zip7_nil7]; rfl
    rw [zip7_cons]
    cases k with
    | zero =>
      simp only [List.getD_cons_zero]
      exact DE2000_self _ _
    | succ k =>
      simp only [List.getD_cons_succ]
      exact ih bs cs hs k

/-- The 8-bit scalar body maps identical input rows to an all-zero output
buffer. -/
theorem body8_self (y u v : List ℕ) (w : ℕ) :
    delta_e_row_body8 y u v y u v (List.replicate w 0) = List.replicate w 0 := by
  have hlen := body8_out_length y u v y u v (List.replicate w 0)
  rw [List.length_replicate] at hlen
  apply List.ext_getElem
  · rw [hlen, List.length_replicate]
  · intro k hk1 hk2
    rw [← List.getD_eq_getElem _ (0 : ℝ) hk1, ← List.getD_eq_getElem _ (0 : ℝ) hk2]
    rw [replicate_getD_zero]
    simp only [delta_e_row_body8]
    set written := zip7 (fun a b c d e f (_ : ℝ) => delta_e_scalar 8 (a, b, c) (d, e, f))
      y (twice u) (twice v) y (twice u) (twice v) (List.replicate w 0) with hw
    rcases Nat.lt_or_ge k written.length with hkw | hkw
    · rw [getD_append_left _ _ _ _ hkw, hw]
      exact zip7_diag_getD_zero y (twice u) (twice v) (List.replicate w 0) k
    · rw [show k = written.length + (k - written.length) from by omega, getD_append_right]
      rw [List.drop_replicate]
      exact replicate_getD_zero _ _

/-- Shared helper for C6: an identical 8-bit 4:2:0 frame pair produces an
all-zero distance buffer. -/
theorem process_frame_self (w h : ℕ) (y u v : List ℕ) :
    process_frame 8 1 1 (RowKernel.scalar 8 1) w h y u v y u v =
      List.replicate (h * w) 0 := by
  simp only [process_frame, bytewidthOf, runRowKernel, delta_e_row_scalar,
    Nat.shiftRight_eq_div_pow, pow_one, reduceIte, Nat.mul_one]
  have hrows : (List.range h).map (fun i =>
      delta_e_row_body8 (sliceOf y (i * w) w)
        (sliceOf u (i / 2 * (w / 2)) (w / 2)) (sliceOf v (i / 2 * (w / 2)) (w / 2))
        (sliceOf y (i * w) w)
        (sliceOf u (i / 2 * (w / 2)) (w / 2)) (sliceOf v (i / 2 * (w / 2)) (w / 2))
        (List.replicate w 0)) = List.replicate h (List.replicate w (0 : ℝ)) := by
    rw [List.eq_replicate_iff]
    constructor
    · simp
    · intro row hrow
      rw [List.mem_map] at hrow
      obtain ⟨i, _, rfl⟩ := hrow
      exact body8_self _ _ _ w
  rw [hrows]
  clear hrows
  induction h with
  | zero => simp
  | succ n ih =>
    rw [List.replicate_succ, List.flatten_cons, ih,
      show (n + 1) * w = w + n * w from by ring, List.replicate_add]

/-- Shared helper for C6: the all-zero buffer has mean 0, and main.rs takes
`log10(0)`, so the score is not a finite defined value (`none`). -/
theorem frame_score_zero_buffer (w h n : ℕ) :
    frame_score w h (List.replicate n (0 : ℝ)) = none := by
  unfold frame_score
  rw [List.sum_replicate, smul_zero, zero_div, if_neg (lt_irrefl 0)]

/-- C6 counterexample: on a concrete identical 2x2 frame pair the distance
buffer is all zeros, and the per-frame score is NOT a defined maximum score
— the code has no `mean == 0` special case and `45 - 20*log10(0)` is not a
finite number (modelled by `none`). -/
theorem claim_C6_counterexample :
    process_frame 8 1 1 (RowKernel.scalar 8 1) 2 2 [10, 20, 30, 40] [50] [60]
        [10, 20, 30, 40] [50] [60] = [0, 0, 0, 0] ∧
    ∀ M : ℝ, frame_score 2 2 (process_frame 8 1 1 (RowKernel.scalar 8 1) 2 2
        [10, 20, 30, 40] [50] [60] [10, 20, 30, 40] [50] [60]) ≠ some M := by
  have hzero := process_frame_self 2 2 [10, 20, 30, 40] [50] [60]
  constructor
  · rw [hzero]; rfl
  · intro M hM
    rw [hzero, frame_score_zero_buffer] at hM
    exact Option.noConfusion hM

/-- C6 (amended): identical input frames give a distance buffer of all
zeros, but the implementation does not special-case `mean == 0`: it always
computes `45 - 20*log10(mean)`, which at mean 0 is `+inf` rather than a
defined maximum score (modelled by `frame_score` returning `none`). -/
theorem claim_C6_identical_frames (w h : ℕ) (y u v : List ℕ) :
    process_frame 8 1 1 (RowKernel.scalar 8 1) w h y u v y u v =
      List.replicate (h * w) 0 ∧
    frame_score w h (process_frame 8 1 1 (RowKernel.scalar 8 1) w h y u v y u v) =
      none := by
  refine ⟨process_frame_self w h y u v, ?_⟩
  rw [process_frame_self w h y u v, frame_score_zero_buffer]

/-! ## C10: the fast power approximation is always called in range -/

theorem mantissa_lower (x : ℝ) (h0 : 0 < x) : 1 ≤ x / 2 ^ Int.log 2 x := by
  rw [le_div_iff (zpow_pos (by norm_num : (0:ℝ) < 2) _), one_mul]
  exact_mod_cast Int.zpow_log_le_self (by norm_num) h0

theorem mantissa_upper (x : ℝ) (h0 : 0 < x) : x / 2 ^ Int.log 2 x < 2 := by
  rw [div_lt_iff (zpow_pos (by norm_num : (0:ℝ) < 2) _)]
  have h := Int.lt_zpow_succ_log_self (b := 2) (by norm_num) x (R := ℝ)
  have h2 : ((2:ℕ):ℝ) ^ (Int.log 2 x + 1) = 2 * (2:ℝ) ^ Int.log 2 x := by
    rw [zpow_add₀ (by norm_num : ((2:ℕ):ℝ) ≠ 0)]
    push_cast
    ring
  rw [h2] at h
  linarith

theorem frac_bounds (x : ℝ) (h0 : 0 < x) :
    0 ≤ ⌊(x / 2 ^ Int.log 2 x - 1) * 8⌋ ∧ ⌊(x / 2 ^ Int.log 2 x - 1) * 8⌋ ≤ 7 := by
  have h1 := mantissa_lower x h0
  have h2 := mantissa_upper x h0
  constructor
  · apply Int.floor_nonneg.mpr
    nlinarith
  · have h8 : ⌊(x / 2 ^ Int.log 2 x - 1) * 8⌋ < 8 := by
      apply Int.floor_lt.mpr
      push_cast
      nlinarith
    omega

theorem pow24_log_bounds (x : ℝ) (hlo : 961 / 10761 ≤ x) (hhi : x < 9 / 4) :
    -4 ≤ Int.log 2 x ∧ Int.log 2 x ≤ 1 := by
  have h0 : (0:ℝ) < x := by linarith
  constructor
  · rw [← Int.zpow_le_iff_le_log (by norm_num) h0]
    calc ((2:ℕ):ℝ) ^ (-4:ℤ) = 1 / 16 := by norm_num
      _ ≤ 961 / 10761 := by norm_num
      _ ≤ x := hlo
  · have hlt : Int.log 2 x < 2 := by
      rw [← Int.lt_zpow_iff_log_lt (by norm_num) h0]
      calc x < 9 / 4 := hhi
        _ ≤ ((2:ℕ):ℝ) ^ (2:ℤ) := by norm_num
    omega

theorem pow_2_4_eq_some (x : ℝ) (hlo : 961 / 10761 ≤ x) (hhi : x < 9 / 4) :
    pow_2_4 x = some (pow24Val x) := by
  obtain ⟨hl, hh⟩ := pow24_log_bounds x hlo hhi
  rw [pow_2_4, if_pos ⟨by linarith, hl, by omega⟩]

/-- Upper bounds on the unclamped RGB channels when the samples are below
`2^bd`. -/
theorem yuv_rgb_channel_upper (bd : ℕ) (hbd : bd = 8 ∨ bd = 10 ∨ bd = 12)
    (yuv : ℕ × ℕ × ℕ) (hy : yuv.1 < 2 ^ bd) (hu : yuv.2.1 < 2 ^ bd)
    (hv : yuv.2.2 < 2 ^ bd) :
    (yuv_to_rgb bd yuv).1 < 2.312 ∧ (yuv_to_rgb bd yuv).2.1 < 2.312 ∧
      (yuv_to_rgb bd yuv).2.2 < 2.312 := by
  have hy0 : (0:ℝ) ≤ (yuv.1 : ℝ) := Nat.cast_nonneg _
  have hu0 : (0:ℝ) ≤ (yuv.2.1 : ℝ) := Nat.cast_nonneg _
  have hv0 : (0:ℝ) ≤ (yuv.2.2 : ℝ) := Nat.cast_nonneg _
  rcases hbd with hbd | hbd | hbd <;> subst hbd
  · have hy' : (yuv.1 : ℝ) < 256 := by exact_mod_cast hy
    have hu' : (yuv.2.1 : ℝ) < 256 := by exact_mod_cast hu
    have hv' : (yuv.2.2 : ℝ) < 256 := by exact_mod_cast hv
    simp only [yuv_to_rgb]
    norm_num
    refine ⟨by nlinarith, by nlinarith, by nlinarith⟩
  · have hy' : (yuv.1 : ℝ) < 1024 := by exact_mod_cast hy
    have hu' : (yuv.2.1 : ℝ) < 1024 := by exact_mod_cast hu
    have hv' : (yuv.2.2 : ℝ) < 1024 := by exact_mod_cast hv
    simp only [yuv_to_rgb]
    norm_num
    refine ⟨by nlinarith, by nlinarith, by nlinarith⟩
  · have hy' : (yuv.1 : ℝ) < 4096 := by exact_mod_cast hy
    have hu' : (yuv.2.1 : ℝ) < 4096 := by exact_mod_cast hu
    have hv' : (yuv.2.2 : ℝ) < 4096 := by exact_mod_cast hv
    simp only [yuv_to_rgb]
    norm_num
    refine ⟨by nlinarith, by nlinarith, by nlinarith⟩

/-- C10: for samples below `2^bd` (bd in {8,10,12}), the scalar conversion
pipeline never performs an out-of-bounds table lookup in `pow_2_4`: for
every RGB channel `c`, the checked gamma decode succeeds, and whenever the
power branch is taken its argument `x = (c+0.055)/1.055` lies in
`[961/10761, 9/4)`, the exponent index `log2 + 4` lies in `[0, 7]` and the
3-bit mantissa index lies in `[0, 7]` — the panic branch is unreachable. -/
theorem claim_C10_pow_domain_safety (bd : ℕ) (hbd : bd = 8 ∨ bd = 10 ∨ bd = 12)
    (yuv : ℕ × ℕ × ℕ) (hy : yuv.1 < 2 ^ bd) (hu : yuv.2.1 < 2 ^ bd)
    (hv : yuv.2.2 < 2 ^ bd) (c : ℝ)
    (hc : c = (yuv_to_rgb bd yuv).1 ∨ c = (yuv_to_rgb bd yuv).2.1 ∨
      c = (yuv_to_rgb bd yuv).2.2) :
    rgb_to_xyz_map_checked c = some (rgb_to_xyz_map c) ∧
    (c > 10.0 / 255.0 →
      (961 / 10761 ≤ (c + 0.055) * (1.0 / 1.055) ∧ (c + 0.055) * (1.0 / 1.055) < 9 / 4) ∧
      pow_2_4 ((c + 0.055) * (1.0 / 1.055)) =
        some (pow24Val ((c + 0.055) * (1.0 / 1.055))) ∧
      (0 ≤ Int.log 2 ((c + 0.055) * (1.0 / 1.055)) + 4 ∧
        Int.log 2 ((c + 0.055) * (1.0 / 1.055)) + 4 ≤ 7) ∧
      (0 ≤ ⌊((c + 0.055) * (1.0 / 1.055) /
            2 ^ Int.log 2 ((c + 0.055) * (1.0 / 1.055)) - 1) * 8⌋ ∧
        ⌊((c + 0.055) * (1.0 / 1.055) /
            2 ^ Int.log 2 ((c + 0.055) * (1.0 / 1.055)) - 1) * 8⌋ ≤ 7)) := by
  have hcu : c < 2.312 := by
    obtain ⟨h1, h2, h3⟩ := yuv_rgb_channel_upper bd hbd yuv hy hu hv
    rcases hc with hc | hc | hc <;> rw [hc] <;> assumption
  have hmain : c > 10.0 / 255.0 →
      (961 / 10761 ≤ (c + 0.055) * (1.0 / 1.055) ∧ (c + 0.055) * (1.0 / 1.055) < 9 / 4) ∧
      pow_2_4 ((c + 0.055) * (1.0 / 1.055)) =
        some (pow24Val ((c + 0.055) * (1.0 / 1.055))) ∧
      (0 ≤ Int.log 2 ((c + 0.055) * (1.0 / 1.055)) + 4 ∧
        Int.log 2 ((c + 0.055) * (1.0 / 1.055)) + 4 ≤ 7) ∧
      (0 ≤ ⌊((c + 0.055) * (1.0 / 1.055) /
            2 ^ Int.log 2 ((c + 0.055) * (1.0 / 1.055)) - 1) * 8⌋ ∧
        ⌊((c + 0.055) * (1.0 / 1.055) /
            2 ^ Int.log 2 ((c + 0.055) * (1.0 / 1.055)) - 1) * 8⌋ ≤ 7) := by
    intro hgt
    have hgt' : (10:ℝ) / 255 < c := by
      calc (10:ℝ) / 255 = 10.0 / 255.0 := by norm_num
        _ < c := hgt
    have hxlo : 961 / 10761 ≤ (c + 0.055) * (1.0 / 1.055) := by nlinarith
    have hxhi : (c + 0.055) * (1.0 / 1.055) < 9 / 4 := by nlinarith
    obtain ⟨hl4, hl1⟩ := pow24_log_bounds _ hxlo hxhi
    have hx0 : (0:ℝ) < (c + 0.055) * (1.0 / 1.055) := by linarith
    obtain ⟨hf0, hf7⟩ := frac_bounds _ hx0
    exact ⟨⟨hxlo, hxhi⟩, pow_2_4_eq_some _ hxlo hxhi, ⟨by omega, by omega⟩, hf0, hf7⟩
  refine ⟨?_, hmain⟩
  unfold rgb_to_xyz_map_checked rgb_to_xyz_map
  rcases le_or_lt c (10.0 / 255.0) with hle | hgt
  · rw [if_neg (not_lt.mpr hle), if_neg (not_lt.mpr hle)]
  · rw [if_pos hgt, if_pos hgt]
    exact ((hmain hgt).2).1

/-- Witness for C10 at an 8-bit mid-gray sample. -/
theorem claim_C10_witness :
    ((8:ℕ) = 8 ∨ (8:ℕ) = 10 ∨ (8:ℕ) = 12) ∧ (128 < 2 ^ 8) ∧
    rgb_to_xyz_map_checked (yuv_to_rgb 8 (128, 128, 128)).1 =
      some (rgb_to_xyz_map (yuv_to_rgb 8 (128, 128, 128)).1) :=
  ⟨Or.inl rfl, by norm_num,
    (claim_C10_pow_domain_safety 8 (Or.inl rfl) (128, 128, 128) (by norm_num)
      (by norm_num) (by norm_num) _ (Or.inl rfl)).1⟩

/-! ## C5: score formula and aggregation -/

theorem logb10_zpow (z : ℤ) : Real.logb 10 ((10 : ℝ) ^ z) = z := by
  rw [show ((10 : ℝ) ^ z) = (10 : ℝ) ^ (z : ℝ) from (Real.rpow_intCast 10 z).symm]
  exact Real.logb_rpow (by norm_num) (by norm_num)

/-- C5: the per-frame score is `45 - 20*log10(mean(buffer))`, scores are
summed and the overall result is `sum / frame_count`; in particular three
frames with mean distances 0.001, 0.01, 0.1 score 105, 85, 65 and the
overall result is 85. -/
theorem claim_C5_frame_aggregation (w h : ℕ) (b1 b2 b3 : List ℝ)
    (h1 : b1.sum / ((w * h : ℕ) : ℝ) = 1 / 1000)
    (h2 : b2.sum / ((w * h : ℕ) : ℝ) = 1 / 100)
    (h3 : b3.sum / ((w * h : ℕ) : ℝ) = 1 / 10) :
    (∀ buf : List ℝ, 0 < buf.sum / ((w * h : ℕ) : ℝ) →
      frame_score w h buf =
        some (45 - 20 * Real.logb 10 (buf.sum / ((w * h : ℕ) : ℝ)))) ∧
    frame_score w h b1 = some 105 ∧
    frame_score w h b2 = some 85 ∧
    frame_score w h b3 = some 65 ∧
    overall_score w h [b1, b2, b3] = some 85 := by
  have hgen : ∀ buf : List ℝ, 0 < buf.sum / ((w * h : ℕ) : ℝ) →
      frame_score w h buf =
        some (45 - 20 * Real.logb 10 (buf.sum / ((w * h : ℕ) : ℝ))) := by
    intro buf hpos
    unfold frame_score
    rw [if_pos hpos]
  have e1 : frame_score w h b1 = some 105 := by
    rw [hgen b1 (by rw [h1]; norm_num), h1,
      show ((1 : ℝ) / 1000) = (10 : ℝ) ^ (-3 : ℤ) from by norm_num, logb10_zpow]
    norm_num
  have e2 : frame_score w h b2 = some 85 := by
    rw [hgen b2 (by rw [h2]; norm_num), h2,
      show ((1 : ℝ) / 100) = (10 : ℝ) ^ (-2 : ℤ) from by norm_num, logb10_zpow]
    norm_num
  have e3 : frame_score w h b3 = some 65 := by
    rw [hgen b3 (by rw [h3]; norm_num), h3,
      show ((1 : ℝ) / 10) = (10 : ℝ) ^ (-1 : ℤ) from by norm_num, logb10_zpow]
    norm_num
  refine ⟨hgen, e1, e2, e3, ?_⟩
  unfold overall_score total_score
  simp only [List.map_cons, List.map_nil, e1, e2, e3, List.foldl_cons, List.foldl_nil]
  norm_num

/-- Witness for C5 at one-pixel frames with the stated means. -/
theorem claim_C5_witness :
    ([(1 : ℝ) / 1000].sum / ((1 * 1 : ℕ) : ℝ) = 1 / 1000) ∧
    overall_score 1 1 [[(1 : ℝ) / 1000], [(1 : ℝ) / 100], [(1 : ℝ) / 10]] = some 85 := by
  constructor
  · simp
  · exact (claim_C5_frame_aggregation 1 1 [(1 : ℝ) / 1000] [(1 : ℝ) / 100] [(1 : ℝ) / 10]
      (by simp) (by simp) (by simp)).2.2.2.2

/-! ## C7: configuration errors that are not fatal (code bug evidence) -/

/-- C7: claimed to be fatal, but on a grayscale (`Cs400`) pair the config
check of main.rs only prints a message and does not exit: computation
proceeds with the 4:2:0 decimation pair, and a run that compares zero
frames divides `0.0/0.0`, printing NaN instead of reporting an error. -/
theorem claim_C7_config_not_fatal :
    configExitsEarly 64 64 64 64 8 8 ChromaSampling.Cs400 ChromaSampling.Cs400 = false ∧
    csDecimation ChromaSampling.Cs400 = (1, 1) ∧
    overall_score 64 64 [] = none := by
  refine ⟨by decide, rfl, ?_⟩
  unfold overall_score total_score
  simp

/-! ## C9: dispatch — counterexample to the claim as stated -/

/-- C9 counterexample: at the supported key `(8, 4:4:4)` with AVX2
available and SIMD enabled, the dispatcher returns the scalar kernel, not a
vectorized one (the AVX2 branch requires `xdec == 1`). -/
theorem claim_C9_counterexample :
    get_delta_e_row_fn 8 0 true true = some (RowKernel.scalar 8 0) ∧
    ∀ bd : ℕ, get_delta_e_row_fn 8 0 true true ≠ some (RowKernel.avx2 bd) := by
  refine ⟨rfl, ?_⟩
  intro bd hEq
  rw [show get_delta_e_row_fn 8 0 true true = some (RowKernel.scalar 8 0) from rfl] at hEq
  exact absurd (Option.some.inj hEq) (by intro hk; cases hk)

/-! ## C2: accuracy of the fast power approximation

The relative accuracy of the binomial-series cubic against `t^(12/5)` on
the residual interval `[16/17, 18/17]` is certified by the natural-number
grid check `pow24GridOk` (4096 cells of width `1/34816`), then transported
to the reals cell by cell. -/

/-- The grid check holds (kernel evaluation of pure ℕ arithmetic). -/
theorem pow24Grid_holds : pow24GridOk 34816 12 32768 = true := by decide

theorem pow24GridOk_cell (M : ℕ) :
    ∀ d n j, pow24GridOk M d n = true → j < 2 ^ d → pow24CellOk M (n + j) = true := by
  intro d
  induction d with
  | zero =>
    intro n j hg hj
    have hj0 : j = 0 := by simpa using hj
    subst hj0
    simpa [pow24GridOk] using hg
  | succ d ih =>
    intro n j hg hj
    rw [pow24GridOk, Bool.and_eq_true] at hg
    rcases Nat.lt_or_ge j (2 ^ d) with hj' | hj'
    · exact ih n j hg.1 hj'
    · have hlt : j - 2 ^ d < 2 ^ d := by
        have : 2 ^ (d + 1) = 2 ^ d + 2 ^ d := by rw [pow_succ]; ring
        omega
      have := ih (n + 2 ^ d) (j - 2 ^ d) hg.2 hlt
      rwa [show n + 2 ^ d + (j - 2 ^ d) = n + j from by omega] at this

theorem pow24Poly_mono {u v : ℝ} (hu : 16 / 17 ≤ u) (huv : u ≤ v) :
    pow24Poly u ≤ pow24Poly v := by
  unfold pow24Poly
  have hv : 16 / 17 ≤ v := le_trans hu huv
  have hF : 0 ≤ -(36 : ℝ) / 125 + 126 / 125 * (u + v) + 28 / 125 * (u ^ 2 + u * v + v ^ 2) := by
    have h1 : 0 ≤ u * v := mul_nonneg (by linarith) (by linarith)
    nlinarith [sq_nonneg u, sq_nonneg v]
  nlinarith [mul_nonneg (sub_nonneg.mpr huv) hF]

theorem rpow24_pow5 (t : ℝ) (ht : 0 < t) :
    (t ^ (2.4 : ℝ)) ^ (5 : ℕ) = t ^ (12 : ℕ) := by
  rw [← Real.rpow_natCast (t ^ (2.4 : ℝ)) 5, ← Real.rpow_mul ht.le]
  rw [show (2.4 : ℝ) * (5 : ℕ) = ((12 : ℕ) : ℝ) from by norm_num]
  exact Real.rpow_natCast t 12

set_option maxHeartbeats 1600000 in
/-- Transport one passed grid cell to a real bound: on `[n/M, (n+1)/M]`
the cubic is within relative error `1/10000` of `t^2.4`. -/
theorem pow24CellOk_sound (M n : ℕ) (hM : 0 < M) (hn : 16 * M ≤ 17 * n)
    (hcell : pow24CellOk M n = true) (t : ℝ)
    (ht1 : (n : ℝ) / M ≤ t) (ht2 : t ≤ ((n : ℝ) + 1) / M) :
    9999 / 10000 * t ^ (2.4 : ℝ) < pow24Poly t ∧
    pow24Poly t < 10001 / 10000 * t ^ (2.4 : ℝ) := by
  simp only [pow24CellOk, Bool.and_eq_true, decide_eq_true_eq] at hcell
  obtain ⟨⟨⟨hr1, hr0⟩, hup⟩, hlo⟩ := hcell
  have hM' : (0 : ℝ) < M := by exact_mod_cast hM
  have ha16 : (16 : ℝ) / 17 ≤ (n : ℝ) / M := by
    rw [div_le_div_iff (by norm_num) hM']
    have : (16 : ℝ) * M ≤ 17 * n := by exact_mod_cast hn
    linarith
  have ht0 : (0 : ℝ) < t := lt_of_lt_of_le (by linarith) ht1
  have ht16 : (16 : ℝ) / 17 ≤ t := le_trans ha16 ht1
  -- the polynomial at the rational endpoints, as cleared fractions
  have hcast0 : ((7 * M ^ 3 + 126 * M * n ^ 2 + 28 * n ^ 3 - 36 * M ^ 2 * n : ℕ) : ℝ) =
      7 * (M : ℝ) ^ 3 + 126 * M * n ^ 2 + 28 * n ^ 3 - 36 * M ^ 2 * n := by
    rw [Nat.cast_sub (le_of_lt hr0)]
    push_cast
    ring
  have hcast1 : ((7 * M ^ 3 + 126 * M * (n + 1) ^ 2 + 28 * (n + 1) ^ 3 -
        36 * M ^ 2 * (n + 1) : ℕ) : ℝ) =
      7 * (M : ℝ) ^ 3 + 126 * M * ((n : ℝ) + 1) ^ 2 + 28 * ((n : ℝ) + 1) ^ 3 -
        36 * M ^ 2 * ((n : ℝ) + 1) := by
    rw [Nat.cast_sub (le_of_lt hr1)]
    push_cast
    ring
  have pa_eq : pow24Poly ((n : ℝ) / M) =
      ((7 * M ^ 3 + 126 * M * n ^ 2 + 28 * n ^ 3 - 36 * M ^ 2 * n : ℕ) : ℝ) /
        (125 * (M : ℝ) ^ 3) := by
    rw [hcast0, pow24Poly]
    field_simp
    ring
  have pb_eq : pow24Poly (((n : ℝ) + 1) / M) =
      ((7 * M ^ 3 + 126 * M * (n + 1) ^ 2 + 28 * (n + 1) ^ 3 -
          36 * M ^ 2 * (n + 1) : ℕ) : ℝ) / (125 * (M : ℝ) ^ 3) := by
    rw [hcast1, pow24Poly]
    field_simp
    ring
  have hA0 : (0 : ℝ) <
      ((7 * M ^ 3 + 126 * M * n ^ 2 + 28 * n ^ 3 - 36 * M ^ 2 * n : ℕ) : ℝ) := by
    have : 0 < 7 * M ^ 3 + 126 * M * n ^ 2 + 28 * n ^ 3 - 36 * M ^ 2 * n := by omega
    exact_mod_cast this
  have hpa_pos : 0 < pow24Poly ((n : ℝ) / M) := by
    rw [pa_eq]
    positivity
  have hpat : pow24Poly ((n : ℝ) / M) ≤ pow24Poly t := pow24Poly_mono ha16 ht1
  have hptb : pow24Poly t ≤ pow24Poly (((n : ℝ) + 1) / M) := pow24Poly_mono ht16 ht2
  have hpt_pos : 0 < pow24Poly t := lt_of_lt_of_le hpa_pos hpat
  have hupR : ((7 * M ^ 3 + 126 * M * (n + 1) ^ 2 + 28 * (n + 1) ^ 3 -
        36 * M ^ 2 * (n + 1) : ℕ) : ℝ) ^ 5 * 10000 ^ 5 <
      10001 ^ 5 * 125 ^ 5 * (n : ℝ) ^ 12 * M ^ 3 := by
    exact_mod_cast hup
  have hloR : (9999 : ℝ) ^ 5 * 125 ^ 5 * ((n : ℝ) + 1) ^ 12 * M ^ 3 <
      ((7 * M ^ 3 + 126 * M * n ^ 2 + 28 * n ^ 3 - 36 * M ^ 2 * n : ℕ) : ℝ) ^ 5 *
        10000 ^ 5 := by exact_mod_cast hlo
  constructor
  · -- lower bound
    have hL0 : (0 : ℝ) ≤ 9999 / 10000 * t ^ (2.4 : ℝ) := by
      have := Real.rpow_pos_of_pos ht0 (2.4 : ℝ)
      positivity
    apply lt_of_pow_lt_pow_left 5 hpt_pos.le
    rw [mul_pow, rpow24_pow5 t ht0]
    have h1 : t ^ (12 : ℕ) ≤ (((n : ℝ) + 1) / M) ^ 12 :=
      pow_le_pow_left ht0.le ht2 12
    have h2 : (9999 / 10000 : ℝ) ^ 5 * (((n : ℝ) + 1) / M) ^ 12 <
        pow24Poly ((n : ℝ) / M) ^ 5 := by
      rw [pa_eq, div_pow, div_pow, div_pow, div_mul_div_comm,
        div_lt_div_iff (by positivity) (by positivity)]
      have hh := mul_lt_mul_of_pos_right hloR (pow_pos hM' 12)
      ring_nf at hh ⊢
      linarith [hh]
    have h3 : pow24Poly ((n : ℝ) / M) ^ 5 ≤ pow24Poly t ^ 5 :=
      pow_le_pow_left hpa_pos.le hpat 5
    calc (9999 / 10000 : ℝ) ^ 5 * t ^ (12 : ℕ)
        ≤ (9999 / 10000 : ℝ) ^ 5 * (((n : ℝ) + 1) / M) ^ 12 := by
          apply mul_le_mul_of_nonneg_left h1 (by positivity)
      _ < pow24Poly ((n : ℝ) / M) ^ 5 := h2
      _ ≤ pow24Poly t ^ 5 := h3
  · -- upper bound
    have hU0 : (0 : ℝ) < 10001 / 10000 * t ^ (2.4 : ℝ) := by
      have := Real.rpow_pos_of_pos ht0 (2.4 : ℝ)
      positivity
    apply lt_of_pow_lt_pow_left 5 hU0.le
    rw [mul_pow, rpow24_pow5 t ht0]
    have h1 : ((n : ℝ) / M) ^ 12 ≤ t ^ (12 : ℕ) :=
      pow_le_pow_left (by positivity) ht1 12
    have h2 : pow24Poly (((n : ℝ) + 1) / M) ^ 5 <
        (10001 / 10000 : ℝ) ^ 5 * ((n : ℝ) / M) ^ 12 := by
      rw [pb_eq, div_pow, div_pow, div_pow, div_mul_div_comm,
        div_lt_div_iff (by positivity) (by positivity)]
      have hh := mul_lt_mul_of_pos_right hupR (pow_pos hM' 12)
      ring_nf at hh ⊢
      linarith [hh]
    have h3 : pow24Poly t ^ 5 ≤ pow24Poly (((n : ℝ) + 1) / M) ^ 5 :=
      pow_le_pow_left hpt_pos.le hptb 5
    calc pow24Poly t ^ 5
        ≤ pow24Poly (((n : ℝ) + 1) / M) ^ 5 := h3
      _ < (10001 / 10000 : ℝ) ^ 5 * ((n : ℝ) / M) ^ 12 := h2
      _ ≤ (10001 / 10000 : ℝ) ^ 5 * t ^ (12 : ℕ) := by
          apply mul_le_mul_of_nonneg_left h1 (by positivity)

/-- Grid transport: on all of `[16/17, 18/17]` the binomial-series cubic is
within relative error `1/10000` of `t^2.4`. -/
theorem pow24Poly_bound (t : ℝ) (hlo : 16 / 17 ≤ t) (hhi : t ≤ 18 / 17) :
    9999 / 10000 * t ^ (2.4 : ℝ) < pow24Poly t ∧
    pow24Poly t < 10001 / 10000 * t ^ (2.4 : ℝ) := by
  have hfl0 : (32768 : ℤ) ≤ ⌊t * 34816⌋ := by
    rw [Int.le_floor]
    push_cast
    nlinarith
  set n : ℕ := min (⌊t * 34816⌋.toNat) 36863 with hn_def
  have hn_lo : 32768 ≤ n := by omega
  have hn_hi : n ≤ 36863 := by omega
  have hj : n - 32768 < 2 ^ 12 := by
    have h12 : (2 : ℕ) ^ 12 = 4096 := by norm_num
    omega
  have hcell : pow24CellOk 34816 n = true := by
    have h := pow24GridOk_cell 34816 12 32768 (n - 32768) pow24Grid_holds hj
    rwa [show 32768 + (n - 32768) = n from by omega] at h
  have hfl_le : ((⌊t * 34816⌋ : ℤ) : ℝ) ≤ t * 34816 := Int.floor_le _
  have hfl_gt : t * 34816 < ((⌊t * 34816⌋ : ℤ) : ℝ) + 1 := Int.lt_floor_add_one _
  have hcast : ((34816 : ℕ) : ℝ) = 34816 := by norm_num
  have ht1 : ((n : ℕ) : ℝ) / ((34816 : ℕ) : ℝ) ≤ t := by
    rw [hcast, div_le_iff (by norm_num : (0:ℝ) < 34816)]
    have h1 : (n : ℤ) ≤ ⌊t * 34816⌋ := by omega
    have h2 : ((n : ℕ) : ℝ) ≤ ((⌊t * 34816⌋ : ℤ) : ℝ) := by exact_mod_cast h1
    linarith
  have ht2 : t ≤ (((n : ℕ) : ℝ) + 1) / ((34816 : ℕ) : ℝ) := by
    rw [hcast, le_div_iff (by norm_num : (0:ℝ) < 34816)]
    rcases le_or_lt (⌊t * 34816⌋) 36863 with hc | hc
    · have h1 : ⌊t * 34816⌋ ≤ (n : ℤ) := by omega
      have h2 : ((⌊t * 34816⌋ : ℤ) : ℝ) ≤ ((n : ℕ) : ℝ) := by exact_mod_cast h1
      linarith
    · have hn_eq : n = 36863 := by omega
      rw [hn_eq]
      push_cast
      linarith
  exact pow24CellOk_sound 34816 n (by norm_num) (by omega) hcell t ht1 ht2

/-- For a mantissa `m ∈ [1, 2)`, the residual after dividing by the table's
midpoint mantissa `1 + (⌊(m-1)·8⌋ + 1/2)/8` lies in `[16/17, 18/17]`. -/
theorem pow24_t_bounds (m : ℝ) (hm1 : 1 ≤ m) (hm2 : m < 2) :
    16 / 17 ≤ m * (1 / (1 + ((⌊(m - 1) * 8⌋ : ℝ) + 0.5) / 8)) ∧
    m * (1 / (1 + ((⌊(m - 1) * 8⌋ : ℝ) + 0.5) / 8)) ≤ 18 / 17 := by
  have hfl : ((⌊(m - 1) * 8⌋ : ℤ) : ℝ) ≤ (m - 1) * 8 := Int.floor_le _
  have hfu : (m - 1) * 8 < (⌊(m - 1) * 8⌋ : ℝ) + 1 := Int.lt_floor_add_one _
  have hf0 : (0 : ℝ) ≤ (⌊(m - 1) * 8⌋ : ℝ) := by
    have h : (0 : ℤ) ≤ ⌊(m - 1) * 8⌋ := Int.floor_nonneg.mpr (by nlinarith)
    exact_mod_cast h
  have htr : (0 : ℝ) < 1 + ((⌊(m - 1) * 8⌋ : ℝ) + 0.5) / 8 := by linarith
  constructor
  · rw [mul_one_div, le_div_iff htr]
    linarith
  · rw [mul_one_div, div_le_iff htr]
    linarith

/-- The idealized fast-power value is within relative error `1/10000` of
`x^2.4` for every positive `x`. -/
theorem pow24Val_accuracy (x : ℝ) (h0 : 0 < x) :
    9999 / 10000 * x ^ (2.4 : ℝ) < pow24Val x ∧
    pow24Val x < 10001 / 10000 * x ^ (2.4 : ℝ) := by
  have hp2 : (0:ℝ) < (2:ℝ) ^ Int.log 2 x := zpow_pos (by norm_num) _
  have hm1 : 1 ≤ x / 2 ^ Int.log 2 x := mantissa_lower x h0
  have hm2 : x / 2 ^ Int.log 2 x < 2 := mantissa_upper x h0
  have hf0' := (frac_bounds x h0).1
  obtain ⟨ht1, ht2⟩ := pow24_t_bounds (x / 2 ^ Int.log 2 x) hm1 hm2
  simp only [pow24Val]
  set P : ℝ := (2:ℝ) ^ Int.log 2 x with hP
  set m : ℝ := x / P with hm
  set f : ℝ := ((⌊(m - 1) * 8⌋ : ℤ) : ℝ) with hf
  set T : ℝ := 1 + (f + 0.5) / 8 with hT
  set t : ℝ := m * (1 / T) with ht
  have hf0R : (0:ℝ) ≤ f := by
    rw [hf]
    exact_mod_cast hf0'
  have hT0 : (0:ℝ) < T := by
    rw [hT]
    linarith
  have ht0 : (0:ℝ) < t := lt_of_lt_of_le (by norm_num) ht1
  obtain ⟨hq1, hq2⟩ := pow24Poly_bound t ht1 ht2
  have hx_eq : x = t * T * P := by
    rw [ht, hm]
    field_simp
    ring
  have hx24 : x ^ (2.4:ℝ) = t ^ (2.4:ℝ) * T ^ (2.4:ℝ) * P ^ (2.4:ℝ) := by
    rw [hx_eq, Real.mul_rpow (mul_nonneg ht0.le hT0.le) hp2.le,
      Real.mul_rpow ht0.le hT0.le]
  have hTP : (0:ℝ) < T ^ (2.4:ℝ) * P ^ (2.4:ℝ) :=
    mul_pos (Real.rpow_pos_of_pos hT0 _) (Real.rpow_pos_of_pos hp2 _)
  constructor
  · rw [hx24]
    calc 9999 / 10000 * (t ^ (2.4:ℝ) * T ^ (2.4:ℝ) * P ^ (2.4:ℝ))
        = (9999 / 10000 * t ^ (2.4:ℝ)) * (T ^ (2.4:ℝ) * P ^ (2.4:ℝ)) := by ring
      _ < pow24Poly t * (T ^ (2.4:ℝ) * P ^ (2.4:ℝ)) :=
          mul_lt_mul_of_pos_right hq1 hTP
      _ = pow24Poly t * T ^ (2.4:ℝ) * P ^ (2.4:ℝ) := by ring
  · rw [hx24]
    calc pow24Poly t * T ^ (2.4:ℝ) * P ^ (2.4:ℝ)
        = pow24Poly t * (T ^ (2.4:ℝ) * P ^ (2.4:ℝ)) := by ring
      _ < (10001 / 10000 * t ^ (2.4:ℝ)) * (T ^ (2.4:ℝ) * P ^ (2.4:ℝ)) :=
          mul_lt_mul_of_pos_right hq2 hTP
      _ = 10001 / 10000 * (t ^ (2.4:ℝ) * T ^ (2.4:ℝ) * P ^ (2.4:ℝ)) := by ring

/-- Claim C2 (counterexample): `0.0097` lies in the claimed domain
`[0.0097, 10.0]`, but its binary exponent is `-7`, below the exponent
table's range `[-4, 3]`, so `pow_2_4` panics (returns no value at all)
instead of returning an approximation of `x^2.4`. -/
theorem claim_C2_counterexample : pow_2_4 (0.0097 : ℝ) = none := by
  have h0 : (0:ℝ) < 0.0097 := by norm_num
  have hlt : Int.log 2 (0.0097:ℝ) < -4 := by
    rw [← Int.lt_zpow_iff_log_lt (by norm_num) h0]
    calc (0.0097:ℝ) < 1 / 16 := by norm_num
      _ = ((2:ℕ):ℝ) ^ (-4:ℤ) := by norm_num
  rw [pow_2_4, if_neg]
  rintro ⟨-, h4, -⟩
  exact absurd h4 (not_le.mpr hlt)

/-- Claim C2 (amended): for every `x` in `[1/16, 10]` — the part of the
claimed interval `[0.0097, 10]` on which the exponent-table index
`log2 + 4` is in range — `pow_2_4` returns a value whose relative error
against `x^2.4` is below `1e-4`. -/
theorem claim_C2_pow_accuracy (x : ℝ) (h1 : 1 / 16 ≤ x) (h2 : x ≤ 10) :
    pow_2_4 x = some (pow24Val x) ∧
    |pow24Val x - x ^ (2.4 : ℝ)| / x ^ (2.4 : ℝ) < 1 / 10000 := by
  have h0 : (0:ℝ) < x := by linarith
  have hlogl : -4 ≤ Int.log 2 x := by
    rw [← Int.zpow_le_iff_le_log (by norm_num) h0]
    calc ((2:ℕ):ℝ) ^ (-4:ℤ) = 1 / 16 := by norm_num
      _ ≤ x := h1
  have hlogu : Int.log 2 x ≤ 3 := by
    have hlt : Int.log 2 x < 4 := by
      rw [← Int.lt_zpow_iff_log_lt (by norm_num) h0]
      calc x ≤ 10 := h2
        _ < ((2:ℕ):ℝ) ^ (4:ℤ) := by norm_num
    omega
  refine ⟨by rw [pow_2_4, if_pos ⟨h0, hlogl, hlogu⟩], ?_⟩
  obtain ⟨hl, hu⟩ := pow24Val_accuracy x h0
  have hx24 : (0:ℝ) < x ^ (2.4:ℝ) := Real.rpow_pos_of_pos h0 _
  rw [div_lt_iff hx24, abs_sub_lt_iff]
  constructor <;> linarith

/-- Instantiation of the amended C2 accuracy bound at `x = 1`. -/
theorem claim_C2_witness :
    (1:ℝ) / 16 ≤ 1 ∧ (1:ℝ) ≤ 10 ∧
    (pow_2_4 (1:ℝ) = some (pow24Val 1) ∧
      |pow24Val 1 - (1:ℝ) ^ (2.4:ℝ)| / (1:ℝ) ^ (2.4:ℝ) < 1 / 10000) :=
  ⟨by norm_num, by norm_num, claim_C2_pow_accuracy 1 (by norm_num) (by norm_num)⟩

theorem sinDeg_zero : sinDeg 0 = 0 := by simp [sinDeg]

theorem sinDeg_neg (x : ℝ) : sinDeg (-x) = -sinDeg x := by
  simp [sinDeg, neg_mul, Real.sin_neg]

theorem sinDeg_90 : sinDeg 90 = 1 := by
  rw [sinDeg, show (90:ℝ) * (π / 180) = π / 2 from by ring]
  exact Real.sin_pi_div_two

theorem cosDeg_mem (x : ℝ) : -1 ≤ cosDeg x ∧ cosDeg x ≤ 1 :=
  ⟨Real.neg_one_le_cos _, Real.cos_le_one _⟩

theorem meanHue_comm (h1 h2 : ℝ) : meanHue h1 h2 = meanHue h2 h1 := by
  unfold meanHue
  rw [abs_sub_comm, add_comm h2 h1]

theorem hueDiffAdjust_neg (d : ℝ) (h180 : d ≠ 180) (hm180 : d ≠ -180) :
    hueDiffAdjust (-d) = -hueDiffAdjust d := by
  have hd := lt_or_gt_of_ne h180
  have hd' := lt_or_gt_of_ne hm180
  unfold hueDiffAdjust
  rcases hd with hd | hd <;> rcases hd' with hd' | hd' <;> split_ifs <;> linarith

theorem chromaOf_nonneg (a b : ℝ) : 0 ≤ chromaOf a b := Real.sqrt_nonneg _

theorem gFactor_nonneg (c : ℝ) (hc : 0 ≤ c) : 0 ≤ gFactor c := by
  unfold gFactor
  have h7 : (0:ℝ) ≤ c ^ 7 := pow_nonneg hc 7
  have hr : c ^ 7 / (c ^ 7 + 25 ^ 7) ≤ 1 :=
    div_le_one_of_le (by nlinarith) (by nlinarith)
  have := Real.sqrt_le_one.2 hr
  linarith

theorem gFactor_le_half (c : ℝ) : gFactor c ≤ 1 / 2 := by
  unfold gFactor
  have := Real.sqrt_nonneg (c ^ 7 / (c ^ 7 + 25 ^ 7))
  linarith

theorem G12_nonneg (l1 l2 : Lab) : 0 ≤ G12 l1 l2 :=
  gFactor_nonneg _ (by
    have h1 := chromaOf_nonneg l1.a l1.b
    have h2 := chromaOf_nonneg l2.a l2.b
    linarith)

theorem G12_le_half (l1 l2 : Lab) : G12 l1 l2 ≤ 1 / 2 := gFactor_le_half _

theorem G12_comm (l1 l2 : Lab) : G12 l1 l2 = G12 l2 l1 := by
  unfold G12
  rw [add_comm]

theorem arctan_le_of_mem (x : ℝ) (h0 : 0 < x) (hx : x < π / 2) :
    Real.arctan x ≤ x := by
  have h1 : x < Real.tan x := Real.lt_tan h0 hx
  have h2 := Real.arctan_strictMono h1
  rw [Real.arctan_tan (by linarith) hx] at h2
  exact h2.le

theorem arctan_pos_of_pos (x : ℝ) (h : 0 < x) : 0 < Real.arctan x := by
  have := Real.arctan_strictMono h
  rwa [Real.arctan_zero] at this

theorem hueDeg_neg_axis (u : ℝ) (hu : 0 < u) :
    hueDeg 2 (-30 * u) = 180 - Real.arctan (1 / (15 * u)) * (180 / π) := by
  have hπ := Real.pi_pos
  have hx : (-30:ℝ) * u < 0 := by nlinarith
  have harg : (2:ℝ) / (-30 * u) = -(1 / (15 * u)) := by
    field_simp
    ring
  have hβ : Real.arctan (1 / (15 * u)) < π / 2 := Real.arctan_lt_pi_div_two _
  simp only [hueDeg, atan2]
  rw [if_neg (by linarith : ¬(0:ℝ) < -30 * u),
    if_pos (show (-30:ℝ) * u < 0 ∧ (0:ℝ) ≤ 2 from ⟨hx, by norm_num⟩),
    harg, Real.arctan_neg]
  rw [if_neg]
  · field_simp
    ring
  · have hpos : 0 < (-Real.arctan (1 / (15 * u)) + π) * (180 / π) :=
      mul_pos (by linarith) (by positivity)
    linarith

theorem hueDeg_pos_axis (u : ℝ) (hu : 0 < u) :
    hueDeg (-4) (60 * u) = 360 - Real.arctan (1 / (15 * u)) * (180 / π) := by
  have hπ := Real.pi_pos
  have harg : (-4:ℝ) / (60 * u) = -(1 / (15 * u)) := by
    field_simp
    ring
  have hβ0 : 0 < Real.arctan (1 / (15 * u)) :=
    arctan_pos_of_pos _ (by positivity)
  simp only [hueDeg, atan2]
  rw [if_pos (by positivity : (0:ℝ) < 60 * u), harg, Real.arctan_neg]
  rw [if_pos]
  · ring
  · have : 0 < Real.arctan (1 / (15 * u)) * (180 / π) :=
      mul_pos hβ0 (by positivity)
    linarith

theorem hPrime_of_zero (l1 l2 : Lab) (ha : l1.a = 0) (hb : l1.b = 0) :
    hPrime l1 l2 = 0 := by
  simp only [hPrime, aPrime, ha, hb, zero_mul, hueDeg, atan2]
  norm_num

/-- Claim C8 (amended): the CIEDE2000 distance is symmetric in its two CIELAB
arguments whenever the difference of the two adjusted hue angles is not
exactly ±180 degrees; in that case the two orders agree exactly (so in
particular within 1e-5). -/
theorem claim_C8_symmetry (lab1 lab2 : Lab) (ksub : KSubArgs)
    (hne1 : hPrime lab2 lab1 - hPrime lab1 lab2 ≠ 180)
    (hne2 : hPrime lab2 lab1 - hPrime lab1 lab2 ≠ -180) :
    DE2000 lab1 lab2 ksub = DE2000 lab2 lab1 ksub := by
  simp only [DE2000]
  rw [mul_comm (cPrime lab2 lab1) (cPrime lab1 lab2),
      add_comm (cPrime lab2 lab1) (cPrime lab1 lab2),
      add_comm lab2.l lab1.l,
      add_comm (hPrime lab2 lab1) (hPrime lab1 lab2),
      meanHue_comm (hPrime lab2 lab1) (hPrime lab1 lab2)]
  by_cases hc : cPrime lab1 lab2 * cPrime lab2 lab1 = 0
  · simp only [if_pos hc, zero_div, sinDeg_zero, mul_zero]
    congr 1
    ring
  · simp only [if_neg hc]
    rw [show hPrime lab1 lab2 - hPrime lab2 lab1 =
        -(hPrime lab2 lab1 - hPrime lab1 lab2) from by ring,
      hueDiffAdjust_neg _ hne1 hne2, neg_div, sinDeg_neg]
    congr 1
    ring

/-- Instantiation of the amended C8 symmetry at the hue-aligned pair
(50,0,0), (60,0,0), whose adjusted hue angles are both zero. -/
theorem claim_C8_witness :
    ((hPrime (⟨60, 0, 0⟩ : Lab) ⟨50, 0, 0⟩ - hPrime (⟨50, 0, 0⟩ : Lab) ⟨60, 0, 0⟩ ≠ 180) ∧
     (hPrime (⟨60, 0, 0⟩ : Lab) ⟨50, 0, 0⟩ - hPrime (⟨50, 0, 0⟩ : Lab) ⟨60, 0, 0⟩ ≠ -180)) ∧
    DE2000 ⟨50, 0, 0⟩ ⟨60, 0, 0⟩ K_SUB = DE2000 ⟨60, 0, 0⟩ ⟨50, 0, 0⟩ K_SUB := by
  have h1 : hPrime (⟨60, 0, 0⟩ : Lab) ⟨50, 0, 0⟩ = 0 := hPrime_of_zero _ _ rfl rfl
  have h2 : hPrime (⟨50, 0, 0⟩ : Lab) ⟨60, 0, 0⟩ = 0 := hPrime_of_zero _ _ rfl rfl
  refine ⟨⟨?_, ?_⟩, claim_C8_symmetry _ _ _ ?_ ?_⟩ <;> rw [h1, h2] <;> norm_num

theorem sqrt_gap_of_bounds (X Y R : ℝ)
    (hX1 : 7.4 ≤ X) (hX2 : X ≤ 14.91)
    (hY1 : 7.16 ≤ Y) (hY2 : Y ≤ 30.7)
    (hR1 : 1.37 ≤ R) (hR2 : R ≤ 2) :
    1 / 100000 < Real.sqrt (X ^ 2 + Y ^ 2 + R * X * Y) -
      Real.sqrt (X ^ 2 + Y ^ 2 - R * X * Y) := by
  have hX0 : (0:ℝ) < X := by linarith
  have hY0 : (0:ℝ) < Y := by linarith
  have hR0 : (0:ℝ) < R := by linarith
  have hXY : (7.4:ℝ) * 7.16 ≤ X * Y := mul_le_mul hX1 hY1 (by norm_num) hX0.le
  have hq' : (1.37:ℝ) * (7.4 * 7.16) ≤ R * (X * Y) :=
    mul_le_mul hR1 hXY (by norm_num) hR0.le
  have hq : (72:ℝ) ≤ R * X * Y := by linarith only [hq']
  have hX2' : X ^ 2 ≤ 14.91 ^ 2 := pow_le_pow_left hX0.le hX2 2
  have hY2' : Y ^ 2 ≤ 30.7 ^ 2 := pow_le_pow_left hY0.le hY2 2
  have hS2nn : 0 ≤ X ^ 2 + Y ^ 2 - R * X * Y := by
    have hp2 : (0:ℝ) ≤ (2 - R) * X * Y :=
      mul_nonneg (mul_nonneg (by linarith only [hR2]) hX0.le) hY0.le
    linarith only [sq_nonneg (X - Y), hp2]
  have hs2lt : Real.sqrt (X ^ 2 + Y ^ 2 - R * X * Y) < 45.62 := by
    rw [Real.sqrt_lt' (by norm_num)]
    linarith only [hX2', hY2', hq]
  have h2 := Real.sq_sqrt hS2nn
  have h0 := Real.sqrt_nonneg (X ^ 2 + Y ^ 2 - R * X * Y)
  have hexp : (Real.sqrt (X ^ 2 + Y ^ 2 - R * X * Y) + 1 / 100000) ^ 2 =
      (X ^ 2 + Y ^ 2 - R * X * Y) +
        (2 / 100000) * Real.sqrt (X ^ 2 + Y ^ 2 - R * X * Y) + 1 / 10000000000 := by
    linear_combination h2
  have hsq : (Real.sqrt (X ^ 2 + Y ^ 2 - R * X * Y) + 1 / 100000) ^ 2 <
      X ^ 2 + Y ^ 2 + R * X * Y := by
    rw [hexp]
    linarith only [hq, hs2lt, h0]
  have hlt : Real.sqrt (X ^ 2 + Y ^ 2 - R * X * Y) + 1 / 100000 <
      Real.sqrt (X ^ 2 + Y ^ 2 + R * X * Y) := by
    rw [Real.lt_sqrt (by positivity)]
    exact hsq
  linarith only [hlt]

set_option maxHeartbeats 1600000 in
/-- Claim C8 (counterexample): at lab1 = (50,-30,2) and lab2 = (50,60,-4) the
adjusted hue difference is exactly 180 degrees, the wrap-around adjustment
maps both +180 and -180 to +180, so the hue-difference term keeps its sign
while the chroma-difference term flips; the rotation cross term therefore
changes sign between the two argument orders and the two distances differ
by far more than the claimed 1e-5 tolerance. -/
theorem claim_C8_counterexample :
    1 / 100000 < |DE2000 ⟨50, -30, 2⟩ ⟨50, 60, -4⟩ K_SUB -
      DE2000 ⟨50, 60, -4⟩ ⟨50, -30, 2⟩ K_SUB| := by
  have hπ := Real.pi_pos
  have hπ1 : (3.141592:ℝ) < π := Real.pi_gt_3141592
  set g : ℝ := G12 ⟨50, -30, 2⟩ ⟨50, 60, -4⟩ with hgdef
  have hg0 : 0 ≤ g := G12_nonneg _ _
  have hg1 : g ≤ 1 / 2 := G12_le_half _ _
  clear_value g
  set u : ℝ := 1 + g with hudef
  have hu0 : (0:ℝ) < u := by rw [hudef]; linarith only [hg0]
  have hu1 : (1:ℝ) ≤ u := by rw [hudef]; linarith only [hg0]
  have hu2 : u ≤ 3 / 2 := by rw [hudef]; linarith only [hg1]
  clear_value u
  set c : ℝ := Real.sqrt (900 * u ^ 2 + 4) with hcdef
  have hc0 : (0:ℝ) < c := by rw [hcdef]; positivity
  have hc30 : 30 < c := by
    rw [hcdef, Real.lt_sqrt (by norm_num)]
    have h : (1:ℝ) * 1 ≤ u * u := mul_le_mul hu1 hu1 (by norm_num) (by linarith only [hu0])
    linarith only [h]
  have hc451 : c < 45.1 := by
    rw [hcdef, Real.sqrt_lt' (by norm_num)]
    have h : u * u ≤ (3:ℝ) / 2 * (3 / 2) :=
      mul_le_mul hu2 hu2 (by linarith only [hu0]) (by norm_num)
    linarith only [h]
  clear_value c
  set α : ℝ := Real.arctan (1 / (15 * u)) * (180 / π) with hαdef
  have hα0 : 0 < α := by
    rw [hαdef]
    exact mul_pos (arctan_pos_of_pos _ (by positivity)) (by positivity)
  have hα4 : α ≤ 3.82 := by
    rw [hαdef]
    have h15 : (1:ℝ) / (15 * u) ≤ 1 / 15 := by
      rw [div_le_div_iff (by positivity) (by norm_num)]
      linarith only [hu1]
    have hlt : (1:ℝ) / (15 * u) < π / 2 := by
      linarith only [h15, hπ1]
    have h1 : Real.arctan (1 / (15 * u)) ≤ 1 / (15 * u) :=
      arctan_le_of_mem _ (by positivity) hlt
    calc Real.arctan (1 / (15 * u)) * (180 / π)
        ≤ (1 / 15) * (180 / π) := by
          apply mul_le_mul (le_trans h1 h15) (le_refl _) (by positivity) (by norm_num)
      _ = 12 / π := by ring
      _ ≤ 3.82 := by
          rw [div_le_iff hπ]
          linarith only [hπ1]
  clear_value α
  have hcPAB : cPrime ⟨50, -30, 2⟩ ⟨50, 60, -4⟩ = c := by
    rw [hcdef]
    simp only [cPrime, chromaOf, aPrime]
    rw [← hgdef, ← hudef]
    congr 1
    ring
  have hcPBA : cPrime ⟨50, 60, -4⟩ ⟨50, -30, 2⟩ = 2 * c := by
    rw [hcdef]
    simp only [cPrime, chromaOf, aPrime]
    rw [G12_comm, ← hgdef, ← hudef]
    rw [show (60 * u) ^ 2 + (-4:ℝ) ^ 2 = 4 * (900 * u ^ 2 + 4) from by ring,
      Real.sqrt_mul (by norm_num : (0:ℝ) ≤ 4),
      show Real.sqrt 4 = 2 from by
        rw [show (4:ℝ) = 2 ^ 2 from by norm_num, Real.sqrt_sq (by norm_num)]]
  have hhPAB : hPrime ⟨50, -30, 2⟩ ⟨50, 60, -4⟩ = 180 - α := by
    rw [hαdef]
    simp only [hPrime, aPrime]
    rw [← hgdef, ← hudef]
    exact hueDeg_neg_axis u hu0
  have hhPBA : hPrime ⟨50, 60, -4⟩ ⟨50, -30, 2⟩ = 360 - α := by
    rw [hαdef]
    simp only [hPrime, aPrime]
    rw [G12_comm, ← hgdef, ← hudef]
    exact hueDeg_pos_axis u hu0
  have hc20 : (0:ℝ) < 2 * c := by linarith only [hc0]
  have hne1 : ¬ c * (2 * c) = 0 := ne_of_gt (mul_pos hc0 hc20)
  have hne2 : ¬ 2 * c * c = 0 := ne_of_gt (mul_pos hc20 hc0)
  have hadj1 : hueDiffAdjust (360 - α - (180 - α)) = 180 := by
    rw [show (360:ℝ) - α - (180 - α) = 180 from by ring]
    norm_num [hueDiffAdjust]
  have hadj2 : hueDiffAdjust (180 - α - (360 - α)) = 180 := by
    rw [show (180:ℝ) - α - (360 - α) = -180 from by ring]
    norm_num [hueDiffAdjust]
  have hmean1 : meanHue (180 - α) (360 - α) = 270 - α := by
    unfold meanHue
    rw [if_pos]
    · ring
    · rw [show (180:ℝ) - α - (360 - α) = -180 from by ring, abs_neg,
        abs_of_nonneg (by norm_num : (0:ℝ) ≤ 180)]
  have hmean2 : meanHue (360 - α) (180 - α) = 270 - α := by
    unfold meanHue
    rw [if_pos]
    · ring
    · rw [show (360:ℝ) - α - (180 - α) = 180 from by ring,
        abs_of_nonneg (by norm_num : (0:ℝ) ≤ 180)]
  have hs90 : sinDeg (180 / 2) = 1 := by
    rw [show (180:ℝ) / 2 = 90 from by norm_num]
    exact sinDeg_90
  have hsq1 : Real.sqrt (c * (2 * c)) = Real.sqrt 2 * c := by
    rw [show c * (2 * c) = 2 * c ^ 2 from by ring,
      Real.sqrt_mul (by norm_num : (0:ℝ) ≤ 2), Real.sqrt_sq hc0.le]
  have hsq2 : Real.sqrt (2 * c * c) = Real.sqrt 2 * c := by
    rw [show 2 * c * c = 2 * c ^ 2 from by ring,
      Real.sqrt_mul (by norm_num : (0:ℝ) ≤ 2), Real.sqrt_sq hc0.le]
  have hr2l : (1.414:ℝ) < Real.sqrt 2 := by
    rw [Real.lt_sqrt (by norm_num)]
    norm_num
  have hr2u : Real.sqrt 2 < 1.4143 := by
    rw [Real.sqrt_lt' (by norm_num)]
    norm_num
  -- expand both distances
  simp only [DE2000, K_SUB]
  rw [hcPAB, hcPBA, hhPAB, hhPBA]
  rw [show 2 * c + c = c + 2 * c from by ring]
  simp only [if_neg hne1, if_neg hne2]
  rw [hadj1, hadj2, hmean1, hmean2, hs90, hsq1, hsq2]
  rw [show (50:ℝ) - 50 = 0 from by norm_num]
  simp only [zero_div]
  -- name the shared subexpressions
  set CB : ℝ := (c + 2 * c) / 2 with hCBdef
  set SC : ℝ := 1 + 0.045 * CB with hSCdef
  set TT : ℝ := 1 - 0.17 * cosDeg (270 - α - 30) + 0.24 * cosDeg (2 * (270 - α)) +
    0.32 * cosDeg (3 * (270 - α) + 6) - 0.20 * cosDeg (4 * (270 - α) - 63) with hTTdef
  set SH : ℝ := 1 + 0.015 * CB * TT with hSHdef
  set E : ℝ := Real.exp (-((270 - α - 275) / 25) ^ 2) with hEdef
  set RT : ℝ := 2 * Real.sqrt (CB ^ 7 / (CB ^ 7 + 25 ^ 7)) * sinDeg (60 * E) with hRTdef
  clear_value CB SC TT SH E RT
  -- bounds for the named subexpressions
  have hCB1 : (45:ℝ) < CB := by rw [hCBdef]; linarith only [hc30]
  have hCB2 : CB < 67.65 := by rw [hCBdef]; linarith only [hc451]
  have hSC1 : (3.025:ℝ) < SC := by rw [hSCdef]; linarith only [hCB1]
  have hSC2 : SC < 4.045 := by rw [hSCdef]; linarith only [hCB2]
  have hTT1 : (0.07:ℝ) ≤ TT := by
    rw [hTTdef]
    obtain ⟨a1, b1⟩ := cosDeg_mem (270 - α - 30)
    obtain ⟨a2, b2⟩ := cosDeg_mem (2 * (270 - α))
    obtain ⟨a3, b3⟩ := cosDeg_mem (3 * (270 - α) + 6)
    obtain ⟨a4, b4⟩ := cosDeg_mem (4 * (270 - α) - 63)
    linarith only [a1, b1, a2, b2, a3, b3, a4, b4]
  have hTT2 : TT ≤ 1.93 := by
    rw [hTTdef]
    obtain ⟨a1, b1⟩ := cosDeg_mem (270 - α - 30)
    obtain ⟨a2, b2⟩ := cosDeg_mem (2 * (270 - α))
    obtain ⟨a3, b3⟩ := cosDeg_mem (3 * (270 - α) + 6)
    obtain ⟨a4, b4⟩ := cosDeg_mem (4 * (270 - α) - 63)
    linarith only [a1, b1, a2, b2, a3, b3, a4, b4]
  have hSH1 : (1.04:ℝ) < SH := by
    rw [hSHdef]
    have hp : (0:ℝ) ≤ (CB - 45) * (TT - 0.07) :=
      mul_nonneg (by linarith only [hCB1]) (by linarith only [hTT1])
    linarith only [hp, hCB1, hTT1]
  have hSH2 : SH < 2.96 := by
    rw [hSHdef]
    have hp : (0:ℝ) ≤ (67.65 - CB) * TT :=
      mul_nonneg (by linarith only [hCB2]) (by linarith only [hTT1])
    linarith only [hp, hTT2]
  have hden : (0:ℝ) < CB ^ 7 + 25 ^ 7 := by
    have h := pow_pos (show (0:ℝ) < CB from by linarith only [hCB1]) 7
    linarith only [h]
  have hRTs1 : (0.98:ℝ) ≤ Real.sqrt (CB ^ 7 / (CB ^ 7 + 25 ^ 7)) := by
    have hpow : (45:ℝ) ^ 7 ≤ CB ^ 7 :=
      pow_le_pow_left (by norm_num) hCB1.le 7
    have hr : (0.98:ℝ) ^ 2 ≤ CB ^ 7 / (CB ^ 7 + 25 ^ 7) := by
      rw [le_div_iff hden]
      linarith only [hpow]
    have h := Real.sqrt_le_sqrt hr
    rwa [Real.sqrt_sq (by norm_num : (0:ℝ) ≤ 0.98)] at h
  have hRTs2 : Real.sqrt (CB ^ 7 / (CB ^ 7 + 25 ^ 7)) ≤ 1 :=
    Real.sqrt_le_one.2 (div_le_one_of_le (by linarith only []) hden.le)
  have hRTs0 : (0:ℝ) ≤ Real.sqrt (CB ^ 7 / (CB ^ 7 + 25 ^ 7)) := Real.sqrt_nonneg _
  have hs2u : ((270 - α - 275) / 25) ^ 2 ≤ 0.124468 := by
    have h1 : ((270 - α - 275) / 25) ^ 2 = (5 + α) ^ 2 / 625 := by ring
    have h2 : (5:ℝ) + α ≤ 8.82 := by linarith only [hα4]
    have h3 : (0:ℝ) ≤ 5 + α := by linarith only [hα0]
    have h4 : ((5:ℝ) + α) ^ 2 ≤ 8.82 ^ 2 := pow_le_pow_left h3 h2 2
    rw [h1]
    linarith only [h4]
  have hs2l : (0.04:ℝ) ≤ ((270 - α - 275) / 25) ^ 2 := by
    have h1 : ((270 - α - 275) / 25) ^ 2 = (5 + α) ^ 2 / 625 := by ring
    have h2 : (5:ℝ) ≤ 5 + α := by linarith only [hα0]
    have h4 : (5:ℝ) ^ 2 ≤ (5 + α) ^ 2 := pow_le_pow_left (by norm_num) h2 2
    rw [h1]
    linarith only [h4]
  have hE1 : (0.875:ℝ) ≤ E := by
    rw [hEdef]
    have h := Real.add_one_le_exp (-((270 - α - 275) / 25) ^ 2)
    linarith only [h, hs2u]
  have hE2 : E ≤ 1 / 1.04 := by
    rw [hEdef]
    have h := Real.add_one_le_exp (((270 - α - 275) / 25) ^ 2)
    rw [Real.exp_neg, show (1:ℝ) / 1.04 = (1.04:ℝ)⁻¹ from by norm_num]
    exact inv_le_inv_of_le (by norm_num) (by linarith only [h, hs2l])
  have hsin1 : (0.7:ℝ) ≤ sinDeg (60 * E) := by
    simp only [sinDeg]
    have hθ1 : (0.9:ℝ) ≤ 60 * E * (π / 180) := by
      have hp : (0:ℝ) ≤ (E - 0.875) * (π - 3.141592) :=
        mul_nonneg (by linarith only [hE1]) (by linarith only [hπ1])
      linarith only [hp, hE1, hπ1]
    have hθ2 : 60 * E * (π / 180) ≤ π / 2 := by
      have hp : (0:ℝ) ≤ (3 / 2 - E) * π :=
        mul_nonneg (by linarith only [hE2]) hπ.le
      linarith only [hp]
    have hmem1 : (0.9:ℝ) ∈ Set.Icc (-(π / 2)) (π / 2) :=
      Set.mem_Icc.mpr ⟨by linarith only [hπ1], by linarith only [hπ1]⟩
    have hmem2 : 60 * E * (π / 180) ∈ Set.Icc (-(π / 2)) (π / 2) :=
      Set.mem_Icc.mpr ⟨by linarith only [hθ1, hπ], hθ2⟩
    have hmono := Real.strictMonoOn_sin.monotoneOn hmem1 hmem2 hθ1
    have hsin09 : (0.7:ℝ) ≤ Real.sin 0.9 := by
      have h := Real.sin_gt_sub_cube (by norm_num : (0:ℝ) < 0.9) (by norm_num : (0.9:ℝ) ≤ 1)
      linarith only [h]
    linarith only [hmono, hsin09]
  have hsin2 : sinDeg (60 * E) ≤ 1 := by
    simp only [sinDeg]
    exact Real.sin_le_one _
  have hsin0 : (0:ℝ) ≤ sinDeg (60 * E) := by linarith only [hsin1]
  have hRT1 : (1.37:ℝ) ≤ RT := by
    rw [hRTdef]
    have hp : (0:ℝ) ≤ (Real.sqrt (CB ^ 7 / (CB ^ 7 + 25 ^ 7)) - 0.98) * (sinDeg (60 * E) - 0.7) :=
      mul_nonneg (by linarith only [hRTs1]) (by linarith only [hsin1])
    linarith only [hp, hRTs1, hsin1]
  have hRT2 : RT ≤ 2 := by
    rw [hRTdef]
    have hp : (0:ℝ) ≤ (1 - Real.sqrt (CB ^ 7 / (CB ^ 7 + 25 ^ 7))) * sinDeg (60 * E) :=
      mul_nonneg (by linarith only [hRTs2]) hsin0
    linarith only [hp, hsin2]
  have hSC0 : SC ≠ 0 := ne_of_gt (by linarith only [hSC1])
  have hSH0 : (0:ℝ) < SH := by linarith only [hSH1]
  set X : ℝ := c / SC with hXdef
  set Y : ℝ := Real.sqrt 2 * c / (2 * SH) with hYdef
  clear_value X Y
  have hX1 : (7.4:ℝ) ≤ X := by
    rw [hXdef, le_div_iff (by linarith only [hSC1] : (0:ℝ) < SC)]
    linarith only [hSC2, hc30]
  have hX2 : X ≤ 14.91 := by
    rw [hXdef, div_le_iff (by linarith only [hSC1] : (0:ℝ) < SC)]
    linarith only [hSC1, hc451]
  have hY1 : (7.16:ℝ) ≤ Y := by
    rw [hYdef, le_div_iff (by linarith only [hSH0] : (0:ℝ) < 2 * SH)]
    have hp : (0:ℝ) ≤ (Real.sqrt 2 - 1.414) * (c - 30) :=
      mul_nonneg (by linarith only [hr2l]) (by linarith only [hc30])
    linarith only [hp, hr2l, hc30, hSH2]
  have hY2 : Y ≤ 30.7 := by
    rw [hYdef, div_le_iff (by linarith only [hSH0] : (0:ℝ) < 2 * SH)]
    have hp : (0:ℝ) ≤ (1.4143 - Real.sqrt 2) * c :=
      mul_nonneg (by linarith only [hr2u]) hc0.le
    linarith only [hp, hc451, hSH1]
  have h4SH : (4.0:ℝ) * SH ≠ 0 := ne_of_gt (by linarith only [hSH0])
  have h2SH : (2:ℝ) * SH ≠ 0 := ne_of_gt (by linarith only [hSH0])
  rw [(show (2 * c - c) / (1.0 * SC) = X from by
        rw [hXdef]; congr 1 <;> ring_nf),
      (show (c - 2 * c) / (1.0 * SC) = -X from by
        rw [hXdef, ← neg_div]; congr 1 <;> ring_nf),
      (show 2 * (Real.sqrt 2 * c) * 1 / (4.0 * SH) = Y from by
        rw [hYdef, div_eq_div_iff h4SH h2SH]; ring)]
  rw [(show (0:ℝ) ^ 2 + X ^ 2 + Y ^ 2 + RT * X * Y = X ^ 2 + Y ^ 2 + RT * X * Y from by ring),
      (show (0:ℝ) ^ 2 + (-X) ^ 2 + Y ^ 2 + RT * -X * Y = X ^ 2 + Y ^ 2 - RT * X * Y from by ring)]
  exact lt_of_lt_of_le (sqrt_gap_of_bounds X Y RT hX1 hX2 hY1 hY2 hRT1 hRT2) (le_abs_self _)

end Theorems

end DumpCiede
